import Mathlib

/-!
# Verification of `suggest-swaps.py` (ceph-osd-utilization-graph)

A shallow embedding of the Ceph OSD swap-suggestion tool.  Python dictionaries
(which preserve insertion order) are embedded as association lists, Python
lists as Lean lists, in-place mutation as explicit state passing, and Python
exceptions (`StopIteration` from `next`, `KeyError` from `dict[...]`,
`ValueError` from `list.remove`) as `Except String`.  NumPy's `np.std`
(population standard deviation) is idealized over the reals.
-/

namespace CephSwaps

/-- Embeds the `CephOsd` dataclass of `suggest-swaps.py`. -/
structure CephOsd where
  id : Int
  bluestore_bdev_size : Int
  device_ids : String
  hostname : String
  bluestore_bdev_type : String
deriving DecidableEq, Repr

/-- Embeds the `CephHost` dataclass: a hostname plus the dict
`osd_by_type` mapping tier label to the list of OSDs, as an
insertion-ordered association list. -/
structure CephHost where
  hostname : String
  osd_by_type : List (String × List CephOsd)
deriving DecidableEq, Repr

/-- Python `d[k]` read access on an insertion-ordered dict: value at the
first (= unique) matching key, `none` when the key is absent. -/
def lookupAL {β : Type} (k : String) : List (String × β) → Option β
  | [] => none
  | (k', v) :: rest => if k' = k then some v else lookupAL k rest

/-- Python `d[k] = f(d[k])`-style in-place update of an association list:
apply `f` to the value stored at the first occurrence of key `k`;
a missing key is a `KeyError`, an error of `f` propagates. -/
def updateAL {β : Type} (k : String) (f : β → Except String β) :
    List (String × β) → Except String (List (String × β))
  | [] => .error "KeyError"
  | (k', v) :: rest =>
    if k' = k then
      match f v with
      | .ok v' => .ok ((k', v') :: rest)
      | .error e => .error e
    else
      match updateAL k f rest with
      | .ok rest' => .ok ((k', v) :: rest')
      | .error e => .error e

/-- Python `d.setdefault(k, []).append(x)`: append `x` to the list stored
under `k`, creating the key (at the end, as dict insertion does) if absent. -/
def appendAL {β : Type} (k : String) (x : β) :
    List (String × List β) → List (String × List β)
  | [] => [(k, [x])]
  | (k', v) :: rest =>
    if k' = k then (k', v ++ [x]) :: rest else (k', v) :: appendAL k x rest

/-- Python `next(host for host in hosts if host.hostname == name)`:
the first host with the given hostname. -/
def findHost (hosts : List CephHost) (name : String) : Option CephHost :=
  hosts.find? (fun h => h.hostname = name)

/-- In-place mutation of the first host with hostname `n` in the host list,
mirroring how `swap_osd` mutates the object found by `next(...)`;
a missing host is the `StopIteration` of `next` on an empty generator. -/
def updateHost (n : String) (f : CephHost → Except String CephHost) :
    List CephHost → Except String (List CephHost)
  | [] => .error "StopIteration"
  | h :: rest =>
    if h.hostname = n then
      match f h with
      | .ok h' => .ok (h' :: rest)
      | .error e => .error e
    else
      match updateHost n f rest with
      | .ok rest' => .ok (h :: rest')
      | .error e => .error e

/-- Python `list.remove(x)`: removes the first element equal to `x`;
`ValueError` when no element is equal. -/
def removeOsd (a : CephOsd) (l : List CephOsd) : Except String (List CephOsd) :=
  if a ∈ l then .ok (l.erase a) else .error "ValueError"

/-- Removing OSD `x` from the bucket of tier `t` of the first host named `n`
(lines 83-84 of `swap_osd`). -/
def removeFromHost (n t : String) (x : CephOsd) (hosts : List CephHost) :
    Except String (List CephHost) :=
  updateHost n (fun h => do
    let obt ← updateAL t (removeOsd x) h.osd_by_type
    .ok { h with osd_by_type := obt }) hosts

/-- Appending OSD `x` to the bucket of tier `t` of the first host named `n`
(lines 88-89 of `swap_osd`); a missing bucket is a `KeyError`. -/
def appendToHost (n t : String) (x : CephOsd) (hosts : List CephHost) :
    Except String (List CephHost) :=
  updateHost n (fun h => do
    let obt ← updateAL t (fun l => .ok (l ++ [x])) h.osd_by_type
    .ok { h with osd_by_type := obt }) hosts

/-- Embeds `swap_osd` (lines 78-89).  `host_a`/`host_b` are resolved first
(line 80-81, `StopIteration` if absent); then OSD `a` is removed from
`host_a`'s bucket of `a`'s own tier and `b` from `host_b`'s (lines 83-84,
`KeyError` / `ValueError`); the hostnames of the two OSDs are exchanged
(line 86); finally each OSD is appended to the other host's bucket of the
OSD's own tier (lines 88-89, `KeyError` if the destination bucket is absent).
Returns the new host list together with the two updated OSD records. -/
def swap_osd (hosts : List CephHost) (osd_a osd_b : CephOsd) :
    Except String (List CephHost × CephOsd × CephOsd) := do
  match findHost hosts osd_a.hostname with
  | none => .error "StopIteration"
  | some _ =>
  match findHost hosts osd_b.hostname with
  | none => .error "StopIteration"
  | some _ =>
  let hosts1 ← removeFromHost osd_a.hostname osd_a.bluestore_bdev_type osd_a hosts
  let hosts2 ← removeFromHost osd_b.hostname osd_b.bluestore_bdev_type osd_b hosts1
  let osd_a' := { osd_a with hostname := osd_b.hostname }
  let osd_b' := { osd_b with hostname := osd_a.hostname }
  let hosts3 ← appendToHost osd_a.hostname osd_b.bluestore_bdev_type osd_b' hosts2
  let hosts4 ← appendToHost osd_b.hostname osd_a.bluestore_bdev_type osd_a' hosts3
  .ok (hosts4, osd_a', osd_b')

/-- One step of `group_osds_by_host_and_type`'s loop body:
`hosts.setdefault(hostname, {})` followed by
`hosts[hostname].setdefault(type, []).append(osd)`. -/
def groupStep (acc : List (String × List (String × List CephOsd))) (o : CephOsd) :
    List (String × List (String × List CephOsd)) :=
  match acc with
  | [] => [(o.hostname, [(o.bluestore_bdev_type, [o])])]
  | (k, v) :: rest =>
    if k = o.hostname then (k, appendAL o.bluestore_bdev_type o v) :: rest
    else (k, v) :: groupStep rest o

/-- Embeds `group_osds_by_host_and_type` (lines 59-66). -/
def group_osds_by_host_and_type (osds : List CephOsd) : List CephHost :=
  (osds.foldl groupStep []).map (fun p => { hostname := p.1, osd_by_type := p.2 })

/-- `sum(osd.bluestore_bdev_size for osd in osds) // (10**9)` — the bucket's
total capacity floored to whole GB (Python `//` is floor division). -/
def bucketTotal (osds : List CephOsd) : Int :=
  Int.fdiv ((osds.map (fun o => o.bluestore_bdev_size)).sum) (10 ^ 9)

/-- The `(osd_type, floored total)` pairs one host contributes to
`total_sizes_by_type`, in bucket insertion order. -/
def hostEntries (h : CephHost) : List (String × Int) :=
  h.osd_by_type.map (fun p => (p.1, bucketTotal p.2))

/-- The `total_sizes_by_type` dict built by the nested loops of
`calculate_spread_by_type` (lines 71-74): for each host, for each tier
bucket, append the host's floored bucket total under that tier. -/
def total_sizes_by_type (hosts : List CephHost) : List (String × List Int) :=
  (hosts.flatMap hostEntries).foldl (fun acc p => appendAL p.1 p.2 acc) []

/-- `np.std`: population standard deviation, idealized over ℝ —
`sqrt(mean((x - mean(x))^2))`.  (Only ever applied to nonempty samples;
Lean's `0/0 = 0` makes the empty case harmlessly `0`.) -/
noncomputable def npStd (l : List Int) : ℝ :=
  let n : ℝ := l.length
  let mean : ℝ := ((l.map (fun x => (x : ℝ))).sum) / n
  Real.sqrt (((l.map (fun x => ((x : ℝ) - mean) ^ 2)).sum) / n)

/-- Embeds `calculate_spread_by_type` (lines 69-75): the per-tier population
standard deviation of the floored per-host totals. -/
noncomputable def calculate_spread_by_type (hosts : List CephHost) :
    List (String × ℝ) :=
  (total_sizes_by_type hosts).map (fun p => (p.1, npStd p.2))

/-- Line 121: `list(original[t] - new[t] for t in original.keys())`: one
improvement per key of the original spread, in key order; a key of the
original spread missing from the new one is a `KeyError`. -/
def improvements (orig newSpread : List (String × ℝ)) : Except String (List ℝ) :=
  match orig with
  | [] => .ok []
  | p :: rest =>
    match lookupAL p.1 newSpread with
    | some v =>
      match improvements rest newSpread with
      | .ok l => .ok ((p.2 - v) :: l)
      | .error e => .error e
    | none => .error "KeyError" 

/-- The mutable state of `find_best_swap`'s loops: `best_swap`,
`highest_spread_improvement` (initially `-float('inf')`, modelled as
`⊥ : EReal`), and the in-place mutated host list. -/
structure SearchState where
  best : Option (CephOsd × CephOsd)
  highest : EReal
  hosts : List CephHost

/-- `list(chain(*host.osd_by_type.values()))` for the first host named `n`
in the current (mutated) host list — the per-host-pair OSD snapshot of
`find_best_swap` (lines 104-105). -/
def osdsOfHost (hosts : List CephHost) (n : String) : List CephOsd :=
  match findHost hosts n with
  | some h => (h.osd_by_type.map (fun p => p.2)).flatten
  | none => []

/-- Line 111: the skip condition for trivially non-beneficial swaps. -/
def Skipped (a b : CephOsd) : Prop :=
  a.bluestore_bdev_size = b.bluestore_bdev_size ∧
    a.bluestore_bdev_type = b.bluestore_bdev_type

instance : DecidablePred fun p : CephOsd × CephOsd => Skipped p.1 p.2 :=
  fun _ => by unfold Skipped; infer_instance

instance (a b : CephOsd) : Decidable (Skipped a b) := by
  unfold Skipped; infer_instance

open Classical

/-- The body of the innermost loop of `find_best_swap` (lines 110-130) for
one candidate pair `(osd_a, osd_b)`: skip no-ops, hypothetically swap,
rescore, accept as new best when the total improvement is positive, beats
the best so far, and no tier worsened, then undo the hypothetical swap. -/
noncomputable def evalCandidate (orig : List (String × ℝ)) (osd_a osd_b : CephOsd)
    (st : SearchState) : Except String SearchState :=
  if Skipped osd_a osd_b then
    .ok st
  else do
    let (hosts1, a1, b1) ← swap_osd st.hosts osd_a osd_b
    let newSpread := calculate_spread_by_type hosts1
    let imps ← improvements orig newSpread
    let ti : ℝ := imps.sum
    let (hosts2, _, _) ← swap_osd hosts1 a1 b1
    if 0 < ti ∧ (ti : EReal) > st.highest ∧ ∀ imp ∈ imps, 0 ≤ imp then
      .ok { best := some (osd_a, osd_b), highest := (ti : EReal), hosts := hosts2 }
    else
      .ok { st with hosts := hosts2 }

/-- `for osd_b in host_b_osds` (line 108), over the fixed snapshot `bs`. -/
noncomputable def loopOsdB (orig : List (String × ℝ)) (osd_a : CephOsd) :
    List CephOsd → SearchState → Except String SearchState
  | [], st => .ok st
  | b :: bs, st => do
    let st' ← evalCandidate orig osd_a b st
    loopOsdB orig osd_a bs st'

/-- `for osd_a in host_a_osds` (line 107), over the fixed snapshots. -/
noncomputable def loopOsdA (orig : List (String × ℝ)) :
    List CephOsd → List CephOsd → SearchState → Except String SearchState
  | [], _, st => .ok st
  | a :: as_, bsnap, st => do
    let st' ← loopOsdB orig a bsnap st
    loopOsdA orig as_ bsnap st'

/-- `for host_b in hosts` (line 99) with the same-host skip (line 100);
the OSD snapshots are taken from the current state when the pair is
processed (lines 104-105). -/
noncomputable def loopHostB (orig : List (String × ℝ)) (na : String) :
    List String → SearchState → Except String SearchState
  | [], st => .ok st
  | nb :: rest, st => do
    let st' ←
      if na = nb then .ok st
      else loopOsdA orig (osdsOfHost st.hosts na) (osdsOfHost st.hosts nb) st
    loopHostB orig na rest st'

/-- `for host_a in hosts` (line 98). -/
noncomputable def loopHostA (orig : List (String × ℝ)) (names : List String) :
    List String → SearchState → Except String SearchState
  | [], st => .ok st
  | na :: rest, st => do
    let st' ← loopHostB orig na names st
    loopHostA orig names rest st'

/-- Embeds `find_best_swap` (lines 92-132).  Besides the returned
`best_swap`, the final (side-effected) host list is part of the result,
because the Python function mutates `hosts` in place and its caller
`optimize` keeps using the mutated list. -/
noncomputable def find_best_swap (hosts : List CephHost) :
    Except String (Option (CephOsd × CephOsd) × List CephHost) := do
  let orig := calculate_spread_by_type hosts
  let names := hosts.map (fun h => h.hostname)
  let st ← loopHostA orig names names { best := none, highest := ⊥, hosts := hosts }
  .ok (st.best, st.hosts)

/-- The raw fields of one entry of `ceph osd metadata` JSON that
`get_ceph_osd_metadata` reads; `none` stands for a missing key
(`osd.get(k, default)` then supplies the default). -/
structure OsdRecord where
  id : Option Int
  bluestore_bdev_size : Option Int
  device_ids : Option String
  hostname : Option String
  bluestore_bdev_type : Option String
deriving DecidableEq, Repr

/-- Line 38-44: building a `CephOsd` from one JSON entry with defaults. -/
def osdOfRecord (r : OsdRecord) : CephOsd :=
  { id := r.id.getD 0
    bluestore_bdev_size := r.bluestore_bdev_size.getD 0
    device_ids := r.device_ids.getD ""
    hostname := r.hostname.getD ""
    bluestore_bdev_type := r.bluestore_bdev_type.getD "" }

/-- The observable outcomes of `subprocess.run(['ceph','osd','metadata'],
..., check=True)`: parsed output on success; `CalledProcessError` on a
non-zero exit status (because of `check=True`); or a transport-level error
(`OSError`/`FileNotFoundError` — e.g. the `ceph` binary or cluster being
unreachable), which is a different exception class. -/
inductive RunResult where
  | success (records : List OsdRecord)
  | calledProcessError
  | transportError
deriving DecidableEq

/-- Embeds `get_ceph_osd_metadata` (lines 31-50) as a function of the
subprocess outcome.  The `try`/`except` catches exactly
`subprocess.CalledProcessError` (line 48), logging and returning `[]`;
any other exception propagates out of the function uncaught. -/
def get_ceph_osd_metadata (r : RunResult) : Except String (List CephOsd) :=
  match r with
  | .success records => .ok (records.map osdOfRecord)
  | .calledProcessError => .ok []
  | .transportError => .error "OSError"

/-! ## Concrete inputs used in counterexamples and witnesses -/

/-- A 4 GB hdd OSD on host `A` (mixed-tier example). -/
def mtA : CephOsd := ⟨1, 4 * 10 ^ 9, "da", "A", "hdd"⟩

/-- A 7 GB ssd OSD on host `B` (mixed-tier example). -/
def mtB : CephOsd := ⟨2, 7 * 10 ^ 9, "db", "B", "ssd"⟩

/-- Two hosts whose only devices are of different tiers: host `A` has only
an hdd bucket, host `B` only an ssd bucket. -/
def MT : List CephHost :=
  [⟨"A", [("hdd", [mtA])]⟩, ⟨"B", [("ssd", [mtB])]⟩]

/-- Sequentially applying `swap_osd` twice to the same pair, as Swap Search
does to apply and then revert a hypothetical swap (lines 115 and 130):
the second call receives the osd records as mutated by the first. -/
def doubleSwap (hosts : List CephHost) (a b : CephOsd) :
    Except String (List CephHost × CephOsd × CephOsd) := do
  let (h1, a1, b1) ← swap_osd hosts a b
  swap_osd h1 a1 b1

/-- 3 GB hdd OSD `ca` on host `A`, listed before `cc` in the same bucket. -/
def ca : CephOsd := ⟨11, 3 * 10 ^ 9, "d1", "A", "hdd"⟩

/-- 5 GB hdd OSD `cc` on host `A`. -/
def cc : CephOsd := ⟨12, 5 * 10 ^ 9, "d2", "A", "hdd"⟩

/-- 9 GB hdd OSD `cb` on host `B`. -/
def cb : CephOsd := ⟨13, 9 * 10 ^ 9, "d3", "B", "hdd"⟩

/-- Host `A` holds `[ca, cc]` (in that order), host `B` holds `[cb]`. -/
def CA : List CephHost :=
  [⟨"A", [("hdd", [ca, cc])]⟩, ⟨"B", [("hdd", [cb])]⟩]

/-! ## Generic association-list lemmas -/

/-- Relational lifting of `R` to `Except String`: both fail (with possibly
different messages), or both succeed with `R`-related values. -/
def ExRel {α β : Type} (R : α → β → Prop) : Except String α → Except String β → Prop
  | .error _, .error _ => True
  | .ok x, .ok y => R x y
  | _, _ => False

theorem ExRel.ok_left {α β : Type} {R : α → β → Prop} {x : Except String α}
    {y : Except String β} (h : ExRel R x y) {a : α} (hx : x = .ok a) :
    ∃ b, y = .ok b ∧ R a b := by
  subst hx
  match y with
  | .ok b => exact ⟨b, rfl, h⟩
  | .error e => exact absurd h (by simp [ExRel])

theorem ExRel.ok_right {α β : Type} {R : α → β → Prop} {x : Except String α}
    {y : Except String β} (h : ExRel R x y) {b : β} (hy : y = .ok b) :
    ∃ a, x = .ok a ∧ R a b := by
  subst hy
  match x with
  | .ok a => exact ⟨a, rfl, h⟩
  | .error e => exact absurd h (by simp [ExRel])

theorem ExRel.error_left {α β : Type} {R : α → β → Prop} {x : Except String α}
    {y : Except String β} (h : ExRel R x y) {e : String} (hx : x = .error e) :
    ∃ e', y = .error e' := by
  subst hx
  match y with
  | .ok b => exact absurd h (by simp [ExRel])
  | .error e' => exact ⟨e', rfl⟩

theorem ExRel.errors {α β : Type} {R : α → β → Prop} {e e' : String} :
    ExRel R (.error e) (.error e') := trivial

theorem ExRel.bind {α β γ δ : Type} {R : α → β → Prop} {S : γ → δ → Prop}
    {x : Except String α} {y : Except String β}
    {f : α → Except String γ} {g : β → Except String δ}
    (h : ExRel R x y) (hfg : ∀ a b, R a b → ExRel S (f a) (g b)) :
    ExRel S (x.bind f) (y.bind g) := by
  match x, y with
  | .ok a, .ok b => exact hfg a b h
  | .error e, .error e' => exact ExRel.errors
  | .ok _, .error _ => exact absurd h (by simp [ExRel])
  | .error _, .ok _ => exact absurd h (by simp [ExRel])

theorem ExRel.ok {α β : Type} {R : α → β → Prop} {a : α} {b : β} (h : R a b) :
    ExRel R (.ok a) (.ok b) := h

/-- Replace the value stored at the first occurrence of key `k`
(no-op when the key is absent). -/
def setAL {β : Type} (k : String) (v : β) : List (String × β) → List (String × β)
  | [] => []
  | (k', w) :: rest =>
    if k' = k then (k', v) :: rest else (k', w) :: setAL k v rest

theorem lookupAL_eq_none {β : Type} {k : String} {l : List (String × β)} :
    lookupAL k l = none ↔ k ∉ l.map Prod.fst := by
  induction l with
  | nil => simp [lookupAL]
  | cons p rest ih =>
    obtain ⟨k', v⟩ := p
    by_cases h : k' = k
    · subst h
      simp [lookupAL]
    · rw [lookupAL, if_neg h, ih]
      constructor
      · intro hn
        simp only [List.map_cons, List.mem_cons]
        rintro (rfl | hmem)
        · exact h rfl
        · exact hn hmem
      · intro hn hmem
        exact hn (by simp [hmem])

theorem updateAL_ok_iff {β : Type} {k : String} {f : β → Except String β}
    {l l' : List (String × β)} :
    updateAL k f l = .ok l' ↔
      ∃ v v', lookupAL k l = some v ∧ f v = .ok v' ∧ l' = setAL k v' l := by
  induction l generalizing l' with
  | nil => simp [updateAL, lookupAL]
  | cons p rest ih =>
    obtain ⟨k', v⟩ := p
    by_cases h : k' = k
    · subst h
      cases hf : f v with
      | ok w =>
        simp only [updateAL, if_pos rfl, hf, lookupAL, setAL]
        constructor
        · intro hok
          exact ⟨v, w, rfl, hf, by simpa using hok.symm⟩
        · rintro ⟨v0, v', hv0, hw, rfl⟩
          obtain rfl : v = v0 := by simpa using hv0
          rw [hf] at hw
          obtain rfl : w = v' := by simpa using hw
          rfl
      | error e =>
        simp only [updateAL, if_pos rfl, hf, lookupAL, setAL]
        constructor
        · intro hok
          exact Except.noConfusion hok
        · rintro ⟨v0, v', hv0, hw, rfl⟩
          obtain rfl : v = v0 := by simpa using hv0
          rw [hf] at hw
          exact Except.noConfusion hw
    · simp only [updateAL, if_neg h, lookupAL, setAL]
      constructor
      · intro hok
        cases hr : updateAL k f rest with
        | ok rest' =>
          rw [hr] at hok
          obtain ⟨v0, v', h1, h2, h3⟩ := ih.mp hr
          refine ⟨v0, v', h1, h2, ?_⟩
          have : (k', v) :: rest' = l' := by simpa using hok
          rw [← this, h3]
        | error e =>
          rw [hr] at hok
          exact absurd hok (by simp)
      · rintro ⟨v0, v', h1, h2, rfl⟩
        rw [ih.mpr ⟨v0, v', h1, h2, rfl⟩]

theorem updateAL_isOk_iff {β : Type} {k : String} {f : β → Except String β}
    {l : List (String × β)} :
    (∃ l', updateAL k f l = .ok l') ↔
      ∃ v v', lookupAL k l = some v ∧ f v = .ok v' := by
  constructor
  · rintro ⟨l', h⟩
    obtain ⟨v, v', h1, h2, _⟩ := updateAL_ok_iff.mp h
    exact ⟨v, v', h1, h2⟩
  · rintro ⟨v, v', h1, h2⟩
    exact ⟨setAL k v' l, updateAL_ok_iff.mpr ⟨v, v', h1, h2, rfl⟩⟩

theorem setAL_keys {β : Type} (k : String) (v : β) (l : List (String × β)) :
    (setAL k v l).map Prod.fst = l.map Prod.fst := by
  induction l with
  | nil => rfl
  | cons p rest ih =>
    obtain ⟨k', w⟩ := p
    by_cases h : k' = k <;> simp [setAL, h, ih]

theorem lookupAL_setAL_self {β : Type} {k : String} {v : β} {l : List (String × β)}
    (h : (lookupAL k l).isSome) : lookupAL k (setAL k v l) = some v := by
  induction l with
  | nil => simp [lookupAL] at h
  | cons p rest ih =>
    obtain ⟨k', w⟩ := p
    by_cases hk : k' = k
    · simp [setAL, lookupAL, hk]
    · simp only [lookupAL, if_neg hk] at h
      simp [setAL, lookupAL, hk, ih h]

theorem lookupAL_setAL_ne {β : Type} {k k' : String} (hne : k ≠ k') (v : β)
    (l : List (String × β)) : lookupAL k' (setAL k v l) = lookupAL k' l := by
  induction l with
  | nil => rfl
  | cons p rest ih =>
    obtain ⟨k0, w⟩ := p
    by_cases h0 : k0 = k
    · subst h0
      simp [setAL, lookupAL, if_neg (by exact fun h => hne h)]
    · simp only [setAL, if_neg h0, lookupAL]
      by_cases h1 : k0 = k' <;> simp [h1, ih]

theorem setAL_setAL_same {β : Type} (k : String) (v w : β) (l : List (String × β)) :
    setAL k v (setAL k w l) = setAL k v l := by
  induction l with
  | nil => rfl
  | cons p rest ih =>
    obtain ⟨k', u⟩ := p
    by_cases h : k' = k <;> simp [setAL, h, ih]

theorem setAL_lookup_self {β : Type} {k : String} {v : β} {l : List (String × β)}
    (h : lookupAL k l = some v) : setAL k v l = l := by
  induction l with
  | nil => rfl
  | cons p rest ih =>
    obtain ⟨k', w⟩ := p
    by_cases hk : k' = k
    · subst hk
      simp only [lookupAL, if_pos rfl] at h
      obtain rfl : w = v := by simpa using h
      simp [setAL]
    · simp only [lookupAL, if_neg hk] at h
      simp [setAL, hk, ih h]

theorem setAL_comm {β : Type} {k k' : String} (hne : k ≠ k') (v w : β)
    (l : List (String × β)) :
    setAL k v (setAL k' w l) = setAL k' w (setAL k v l) := by
  induction l with
  | nil => rfl
  | cons p rest ih =>
    obtain ⟨k0, u⟩ := p
    by_cases h0 : k0 = k
    · subst h0
      simp [setAL, hne]
    · by_cases h1 : k0 = k'
      · subst h1
        simp [setAL, h0]
      · simp [setAL, h0, h1, ih]

/-! ## A multiset-level view of the topology

`αTopo` forgets the order inside each tier bucket (but keeps host order,
bucket-key order and every field of every OSD).  `swap_osd` is proved to
correspond exactly to a multiset-level `swapA`; two topologies with the
same `αTopo` therefore behave identically under swapping and under the
balance metric. -/

/-- Tier buckets with their contents as multisets. -/
abbrev ABuckets := List (String × Multiset CephOsd)

/-- The whole topology at the multiset level. -/
abbrev ATopo := List (String × ABuckets)

/-- Forget bucket-internal order. -/
def αBuckets (l : List (String × List CephOsd)) : ABuckets :=
  l.map (fun p => (p.1, (p.2 : Multiset CephOsd)))

/-- One host at the multiset level. -/
def αHost (h : CephHost) : String × ABuckets :=
  (h.hostname, αBuckets h.osd_by_type)

/-- The topology at the multiset level. -/
def αTopo (s : List CephHost) : ATopo := s.map αHost

/-- `list.remove` at the multiset level. -/
def removeOsdM (a : CephOsd) (m : Multiset CephOsd) :
    Except String (Multiset CephOsd) :=
  if a ∈ m then .ok (m.erase a) else .error "ValueError"

/-- `removeFromHost` at the multiset level. -/
def removeFromHostA (n t : String) (x : CephOsd) (A : ATopo) :
    Except String ATopo :=
  updateAL n (updateAL t (removeOsdM x)) A

/-- `appendToHost` at the multiset level (append = multiset cons). -/
def appendToHostA (n t : String) (x : CephOsd) (A : ATopo) :
    Except String ATopo :=
  updateAL n (updateAL t (fun m => .ok (x ::ₘ m))) A

/-- `swap_osd` at the multiset level. -/
def swapA (A : ATopo) (a b : CephOsd) : Except String ATopo := do
  match lookupAL a.hostname A with
  | none => .error "StopIteration"
  | some _ =>
  match lookupAL b.hostname A with
  | none => .error "StopIteration"
  | some _ =>
  let A1 ← removeFromHostA a.hostname a.bluestore_bdev_type a A
  let A2 ← removeFromHostA b.hostname b.bluestore_bdev_type b A1
  let A3 ← appendToHostA a.hostname b.bluestore_bdev_type
    { b with hostname := a.hostname } A2
  let A4 ← appendToHostA b.hostname a.bluestore_bdev_type
    { a with hostname := b.hostname } A3
  .ok A4

theorem αTopo_nil : αTopo [] = [] := rfl

theorem αTopo_cons (h : CephHost) (rest : List CephHost) :
    αTopo (h :: rest) = (h.hostname, αBuckets h.osd_by_type) :: αTopo rest := rfl

/-- Lifting a bucket-dict transformer to a host transformer; definitionally
equal to the `do`-blocks inside `removeFromHost` / `appendToHost`. -/
def onBuckets
    (F : List (String × List CephOsd) → Except String (List (String × List CephOsd)))
    (h : CephHost) : Except String CephHost :=
  match F h.osd_by_type with
  | .ok obt => .ok { h with osd_by_type := obt }
  | .error e => .error e

theorem updateHost_congr_fn {n : String} {f g : CephHost → Except String CephHost}
    (h : ∀ x, f x = g x) : ∀ s, updateHost n f s = updateHost n g s
  | [] => rfl
  | x :: rest => by
    simp only [updateHost, h x, updateHost_congr_fn h rest]

theorem removeFromHost_eq (n t : String) (x : CephOsd) (hosts : List CephHost) :
    removeFromHost n t x hosts =
      updateHost n (onBuckets (updateAL t (removeOsd x))) hosts :=
  updateHost_congr_fn
    (fun h => by
      cases hF : updateAL t (removeOsd x) h.osd_by_type <;>
        rw [onBuckets, hF] <;> rfl) hosts

theorem appendToHost_eq (n t : String) (x : CephOsd) (hosts : List CephHost) :
    appendToHost n t x hosts =
      updateHost n (onBuckets (updateAL t (fun l => .ok (l ++ [x])))) hosts :=
  updateHost_congr_fn
    (fun h => by
      cases hF : updateAL t (fun l => Except.ok (l ++ [x])) h.osd_by_type <;>
        rw [onBuckets, hF] <;> rfl) hosts

theorem removeOsd_alpha (a : CephOsd) (l : List CephOsd) :
    ExRel (fun (l' : List CephOsd) (m : Multiset CephOsd) => (l' : Multiset CephOsd) = m)
      (removeOsd a l) (removeOsdM a (l : Multiset CephOsd)) := by
  by_cases h : a ∈ l
  · simp only [removeOsd, removeOsdM, if_pos h, if_pos (Multiset.mem_coe.mpr h)]
    exact ExRel.ok (Multiset.coe_erase l a).symm
  · simp only [removeOsd, removeOsdM, if_neg h,
      if_neg (fun hm => h (Multiset.mem_coe.mp hm))]
    exact ExRel.errors

/-- `updateAL` commutes with mapping the values of the association list,
provided the value transformer `f` corresponds to `g` through `αv`. -/
theorem updateAL_map {β γ : Type} (αv : β → γ) (k : String)
    (f : β → Except String β) (g : γ → Except String γ)
    (hfg : ∀ v, ExRel (fun v' w => αv v' = w) (f v) (g (αv v)))
    (l : List (String × β)) :
    ExRel (fun l' L => l'.map (fun p => (p.1, αv p.2)) = L)
      (updateAL k f l) (updateAL k g (l.map (fun p => (p.1, αv p.2)))) := by
  induction l with
  | nil => exact ExRel.errors
  | cons p rest ih =>
    obtain ⟨k', v⟩ := p
    by_cases h : k' = k
    · simp only [List.map_cons, updateAL, if_pos h]
      have := hfg v
      cases hf : f v with
      | ok v' =>
        obtain ⟨w, hw, hrel⟩ := this.ok_left hf
        rw [hw]
        exact ExRel.ok (by simp [hrel])
      | error e =>
        obtain ⟨e', hw⟩ := this.error_left hf
        rw [hw]
        exact ExRel.errors
    · simp only [List.map_cons, updateAL, if_neg h]
      cases hr : updateAL k f rest with
      | ok rest' =>
        obtain ⟨L, hL, hrel⟩ := ih.ok_left hr
        rw [hL]
        exact ExRel.ok (by simp [hrel])
      | error e =>
        obtain ⟨e', hL⟩ := ih.error_left hr
        rw [hL]
        exact ExRel.errors

theorem lookupAL_alphaTopo (s : List CephHost) (n : String) :
    lookupAL n (αTopo s) =
      (findHost s n).map (fun h => αBuckets h.osd_by_type) := by
  induction s with
  | nil => rfl
  | cons h rest ih =>
    by_cases hn : h.hostname = n
    · rw [αTopo_cons, lookupAL, if_pos hn, findHost,
        List.find?_cons_of_pos _ (by simp [hn])]
      rfl
    · rw [αTopo_cons, lookupAL, if_neg hn, findHost,
        List.find?_cons_of_neg _ (by simp [hn])]
      exact ih

/-- `updateHost` with a bucket-level transformer corresponds to `updateAL`
on the multiset view. -/
theorem updateHost_alpha (n : String)
    (F : List (String × List CephOsd) → Except String (List (String × List CephOsd)))
    (G : ABuckets → Except String ABuckets)
    (hFG : ∀ obt, ExRel (fun obt' B => αBuckets obt' = B) (F obt) (G (αBuckets obt)))
    (s : List CephHost) :
    ExRel (fun s' A => αTopo s' = A)
      (updateHost n (onBuckets F) s) (updateAL n G (αTopo s)) := by
  induction s with
  | nil => exact ExRel.errors
  | cons h rest ih =>
    by_cases hn : h.hostname = n
    · rw [αTopo_cons, updateHost, updateAL, if_pos hn, if_pos hn]
      have := hFG h.osd_by_type
      cases hF : F h.osd_by_type with
      | ok obt' =>
        obtain ⟨B, hB, hrel⟩ := this.ok_left hF
        rw [hB, onBuckets, hF]
        exact ExRel.ok (by rw [αTopo_cons]; simp [αBuckets] at hrel ⊢; exact hrel)
      | error e =>
        obtain ⟨e', hB⟩ := this.error_left hF
        rw [hB, onBuckets, hF]
        exact ExRel.errors
    · rw [αTopo_cons, updateHost, updateAL, if_neg hn, if_neg hn]
      cases hr : updateHost n (onBuckets F) rest with
      | ok rest' =>
        obtain ⟨L, hL, hrel⟩ := ih.ok_left hr
        rw [hL]
        exact ExRel.ok (by rw [αTopo_cons, hrel])
      | error e =>
        obtain ⟨e', hL⟩ := ih.error_left hr
        rw [hL]
        exact ExRel.errors

/-- Result relation for `swap_osd` vs `swapA`: the final host list projects
to the multiset topology, and the returned OSD records are the two inputs
with exchanged hostnames. -/
def SwapRel (a b : CephOsd) (r : List CephHost × CephOsd × CephOsd)
    (A : ATopo) : Prop :=
  αTopo r.1 = A ∧ r.2.1 = { a with hostname := b.hostname } ∧
    r.2.2 = { b with hostname := a.hostname }

theorem removeFromHost_alpha (n t : String) (x : CephOsd) (s : List CephHost) :
    ExRel (fun s' A => αTopo s' = A)
      (removeFromHost n t x s) (removeFromHostA n t x (αTopo s)) := by
  rw [removeFromHost_eq, removeFromHostA]
  exact updateHost_alpha n _ _
    (fun obt => @updateAL_map (List CephOsd) (Multiset CephOsd)
      (fun l => (l : Multiset CephOsd)) t (removeOsd x) (removeOsdM x)
      (removeOsd_alpha x) obt) s

theorem appendToHost_alpha (n t : String) (x : CephOsd) (s : List CephHost) :
    ExRel (fun s' A => αTopo s' = A)
      (appendToHost n t x s) (appendToHostA n t x (αTopo s)) := by
  rw [appendToHost_eq, appendToHostA]
  refine updateHost_alpha n _ _
    (fun obt => @updateAL_map (List CephOsd) (Multiset CephOsd)
      (fun l => (l : Multiset CephOsd)) t (fun l => .ok (l ++ [x]))
      (fun m => .ok (x ::ₘ m)) (fun v => ExRel.ok ?_) obt) s
  show (↑(v ++ [x]) : Multiset CephOsd) = x ::ₘ (v : Multiset CephOsd)
  rw [Multiset.cons_coe]
  exact Multiset.coe_eq_coe.mpr (List.perm_append_singleton x v)

theorem swap_osd_alpha (s : List CephHost) (a b : CephOsd) :
    ExRel (SwapRel a b) (swap_osd s a b) (swapA (αTopo s) a b) := by
  rw [swap_osd, swapA, lookupAL_alphaTopo, lookupAL_alphaTopo]
  cases hfa : findHost s a.hostname with
  | none => exact ExRel.errors
  | some ha =>
    cases hfb : findHost s b.hostname with
    | none => exact ExRel.errors
    | some hb =>
      simp only [Option.map_some']
      refine ExRel.bind (removeFromHost_alpha _ _ _ s) (fun s1 A1 h1 => ?_)
      rw [← h1]
      refine ExRel.bind (removeFromHost_alpha _ _ _ s1) (fun s2 A2 h2 => ?_)
      rw [← h2]
      refine ExRel.bind (appendToHost_alpha _ _ _ s2) (fun s3 A3 h3 => ?_)
      rw [← h3]
      refine ExRel.bind (appendToHost_alpha _ _ _ s3) (fun s4 A4 h4 => ?_)
      exact ExRel.ok ⟨h4, rfl, rfl⟩

/-! ## Bucket-level characterization of the multiset swap -/

/-- The multiset stored for host `n`, tier `t`. -/
def getBucket (A : ATopo) (n t : String) : Option (Multiset CephOsd) :=
  (lookupAL n A).bind (lookupAL t)

/-- Replace the multiset stored for host `n`, tier `t` (no-op when the host
is absent). -/
def setBucket (A : ATopo) (n t : String) (m : Multiset CephOsd) : ATopo :=
  match lookupAL n A with
  | some B => setAL n (setAL t m B) A
  | none => A

theorem removeFromHostA_ok_iff {n t : String} {x : CephOsd} {A A' : ATopo} :
    removeFromHostA n t x A = .ok A' ↔
      ∃ m, getBucket A n t = some m ∧ x ∈ m ∧
        A' = setBucket A n t (m.erase x) := by
  rw [removeFromHostA, updateAL_ok_iff]
  constructor
  · rintro ⟨B, B', hB, hB', rfl⟩
    obtain ⟨m, m', hm, hm', rfl⟩ := updateAL_ok_iff.mp hB'
    rw [removeOsdM] at hm'
    by_cases hx : x ∈ m
    · rw [if_pos hx] at hm'
      obtain rfl : m.erase x = m' := by simpa using hm'
      exact ⟨m, by rw [getBucket, hB]; exact hm, hx, by rw [setBucket, hB]⟩
    · rw [if_neg hx] at hm'
      exact absurd hm' (by simp)
  · rintro ⟨m, hm, hx, rfl⟩
    rw [getBucket] at hm
    cases hB : lookupAL n A with
    | none => rw [hB] at hm; exact absurd hm (by simp)
    | some B =>
      rw [hB] at hm
      replace hm : lookupAL t B = some m := hm
      refine ⟨B, setAL t (m.erase x) B, rfl, ?_, by rw [setBucket, hB]⟩
      exact updateAL_ok_iff.mpr ⟨m, m.erase x, hm, by rw [removeOsdM, if_pos hx], rfl⟩

theorem appendToHostA_ok_iff {n t : String} {x : CephOsd} {A A' : ATopo} :
    appendToHostA n t x A = .ok A' ↔
      ∃ m, getBucket A n t = some m ∧ A' = setBucket A n t (x ::ₘ m) := by
  rw [appendToHostA, updateAL_ok_iff]
  constructor
  · rintro ⟨B, B', hB, hB', rfl⟩
    obtain ⟨m, m', hm, hm', rfl⟩ := updateAL_ok_iff.mp hB'
    obtain rfl : x ::ₘ m = m' := by simpa using hm'
    exact ⟨m, by rw [getBucket, hB]; exact hm, by rw [setBucket, hB]⟩
  · rintro ⟨m, hm, rfl⟩
    rw [getBucket] at hm
    cases hB : lookupAL n A with
    | none => rw [hB] at hm; exact absurd hm (by simp)
    | some B =>
      rw [hB] at hm
      replace hm : lookupAL t B = some m := hm
      refine ⟨B, setAL t (x ::ₘ m) B, rfl, ?_, by rw [setBucket, hB]⟩
      exact updateAL_ok_iff.mpr ⟨m, x ::ₘ m, hm, rfl, rfl⟩

theorem lookupAL_isSome_of_getBucket {A : ATopo} {n t : String}
    {m : Multiset CephOsd} (h : getBucket A n t = some m) :
    ∃ B, lookupAL n A = some B ∧ lookupAL t B = some m := by
  rw [getBucket] at h
  cases hB : lookupAL n A with
  | none => rw [hB] at h; exact absurd h (by simp)
  | some B => rw [hB] at h; exact ⟨B, rfl, by simpa using h⟩


theorem getBucket_setBucket_self {A : ATopo} {n t : String}
    {m0 : Multiset CephOsd} (h : getBucket A n t = some m0)
    (m : Multiset CephOsd) : getBucket (setBucket A n t m) n t = some m := by
  obtain ⟨B, hB, hm⟩ := lookupAL_isSome_of_getBucket h
  rw [setBucket, hB, getBucket, lookupAL_setAL_self (by rw [hB]; rfl)]
  show lookupAL t (setAL t m B) = some m
  exact lookupAL_setAL_self (by rw [hm]; rfl)

theorem getBucket_setBucket_ne_t {A : ATopo} {n t t' : String} {B : ABuckets}
    (hB : lookupAL n A = some B) (hne : t ≠ t') (m : Multiset CephOsd) :
    getBucket (setBucket A n t m) n t' = getBucket A n t' := by
  rw [setBucket, hB, getBucket, lookupAL_setAL_self (by rw [hB]; rfl), getBucket, hB]
  show lookupAL t' (setAL t m B) = lookupAL t' B
  exact lookupAL_setAL_ne hne m B

theorem getBucket_setBucket_ne_host {A : ATopo} {n n' t t' : String}
    (hne : n ≠ n') (m : Multiset CephOsd) :
    getBucket (setBucket A n t m) n' t' = getBucket A n' t' := by
  rw [setBucket]
  cases hB : lookupAL n A with
  | none => rfl
  | some B => rw [getBucket, lookupAL_setAL_ne hne, getBucket]

theorem setBucket_none {A : ATopo} {n : String} (h : lookupAL n A = none)
    (t : String) (m : Multiset CephOsd) : setBucket A n t m = A := by
  rw [setBucket, h]

theorem setBucket_some {A : ATopo} {n : String} {B : ABuckets}
    (h : lookupAL n A = some B) (t : String) (m : Multiset CephOsd) :
    setBucket A n t m = setAL n (setAL t m B) A := by
  rw [setBucket, h]

theorem lookupAL_setBucket_ne {A : ATopo} {n n' t : String}
    (hne : n ≠ n') (m : Multiset CephOsd) :
    lookupAL n' (setBucket A n t m) = lookupAL n' A := by
  rw [setBucket]
  cases hB : lookupAL n A with
  | none => rfl
  | some B => exact lookupAL_setAL_ne hne _ _

theorem lookupAL_setBucket_self {A : ATopo} {n t : String} {B : ABuckets}
    (hB : lookupAL n A = some B) (m : Multiset CephOsd) :
    lookupAL n (setBucket A n t m) = some (setAL t m B) := by
  rw [setBucket_some hB]
  exact lookupAL_setAL_self (by rw [hB]; rfl)

theorem setBucket_setBucket_same {A : ATopo} {n t : String} {B : ABuckets}
    (hB : lookupAL n A = some B) (m1 m2 : Multiset CephOsd) :
    setBucket (setBucket A n t m1) n t m2 = setBucket A n t m2 := by
  rw [setBucket_some (lookupAL_setBucket_self hB m1), setBucket_some hB,
    setBucket_some hB, setAL_setAL_same, setAL_setAL_same]

theorem setBucket_comm_t {A : ATopo} {n t t' : String} {B : ABuckets}
    (hB : lookupAL n A = some B) (hne : t ≠ t') (m m' : Multiset CephOsd) :
    setBucket (setBucket A n t m) n t' m' = setBucket (setBucket A n t' m') n t m := by
  rw [setBucket_some (lookupAL_setBucket_self hB m),
    setBucket_some (lookupAL_setBucket_self hB m'), setBucket_some hB,
    setBucket_some hB, setAL_setAL_same, setAL_setAL_same, setAL_comm hne]

theorem setBucket_comm_host {A : ATopo} {n n' t t' : String}
    (hne : n ≠ n') (m m' : Multiset CephOsd) :
    setBucket (setBucket A n t m) n' t' m' =
      setBucket (setBucket A n' t' m') n t m := by
  cases hB : lookupAL n A with
  | none =>
    have hn2 : lookupAL n (setBucket A n' t' m') = none := by
      rw [lookupAL_setBucket_ne (fun h => hne h.symm), hB]
    rw [setBucket_none hB, setBucket_none hn2]
  | some B =>
    cases hB2 : lookupAL n' A with
    | none =>
      have hn2 : lookupAL n' (setBucket A n t m) = none := by
        rw [lookupAL_setBucket_ne hne, hB2]
      rw [setBucket_none hB2, setBucket_none hn2]
    | some B2 =>
      rw [setBucket_some hB, setBucket_some hB2,
        setBucket_some (by rw [lookupAL_setAL_ne hne, hB2] : lookupAL n'
          (setAL n (setAL t m B) A) = some B2),
        setBucket_some (by rw [lookupAL_setAL_ne (fun h => hne h.symm), hB] :
          lookupAL n (setAL n' (setAL t' m' B2) A) = some B),
        setAL_comm hne]

theorem setBucket_getBucket_self {A : ATopo} {n t : String}
    {m : Multiset CephOsd} (h : getBucket A n t = some m) :
    setBucket A n t m = A := by
  obtain ⟨B, hB, hm⟩ := lookupAL_isSome_of_getBucket h
  rw [setBucket_some hB, setAL_lookup_self hm, setAL_lookup_self hB]

theorem bind_ok_elim {α β : Type} {x : Except String α} {f : α → Except String β}
    {c : β} (h : x.bind f = .ok c) : ∃ v, x = .ok v ∧ f v = .ok c := by
  cases x with
  | ok v => exact ⟨v, rfl, h⟩
  | error e => exact Except.noConfusion h

theorem lookupAL_setBucket_isSome {A : ATopo} {n n' t : String}
    {m : Multiset CephOsd} :
    (lookupAL n' (setBucket A n t m)).isSome = (lookupAL n' A).isSome := by
  by_cases hne : n = n'
  · subst hne
    cases hB : lookupAL n A with
    | none => rw [setBucket_none hB, hB]
    | some B => simp [lookupAL_setBucket_self hB, hB]
  · rw [lookupAL_setBucket_ne hne]

/-- Applying `swapA` and then `swapA` on the hostname-exchanged records
(exactly what Swap Search does to score and then revert a candidate)
always succeeds when the first swap succeeded, and restores the multiset
topology exactly. -/
theorem swapA_revert {A D : ATopo} {a b : CephOsd} (h : swapA A a b = .ok D) :
    swapA D { a with hostname := b.hostname } { b with hostname := a.hostname } =
      .ok A := by
  rw [swapA] at h
  cases hla : lookupAL a.hostname A with
  | none => rw [hla] at h; exact Except.noConfusion h
  | some Ba =>
  rw [hla] at h
  cases hlb : lookupAL b.hostname A with
  | none => rw [hlb] at h; exact Except.noConfusion h
  | some Bb =>
  rw [hlb] at h
  obtain ⟨S1, h1, h⟩ := bind_ok_elim h
  obtain ⟨S2, h2, h⟩ := bind_ok_elim h
  obtain ⟨S3, h3, h⟩ := bind_ok_elim h
  obtain ⟨S4, h4, h⟩ := bind_ok_elim h
  obtain rfl : S4 = D := by simpa using h
  obtain ⟨m1, hg1, ha1, rfl⟩ := removeFromHostA_ok_iff.mp h1
  obtain ⟨m2, hg2, hb2, rfl⟩ := removeFromHostA_ok_iff.mp h2
  obtain ⟨m3, hg3, rfl⟩ := appendToHostA_ok_iff.mp h3
  obtain ⟨m4, hg4, rfl⟩ := appendToHostA_ok_iff.mp h4
  -- names for the four intermediate states of the first swap
  set S1 := setBucket A a.hostname a.bluestore_bdev_type (m1.erase a) with hS1
  set S2 := setBucket S1 b.hostname b.bluestore_bdev_type (m2.erase b) with hS2
  set S3 := setBucket S2 a.hostname b.bluestore_bdev_type
    ({ b with hostname := a.hostname } ::ₘ m3) with hS3
  set D := setBucket S3 b.hostname a.bluestore_bdev_type
    ({ a with hostname := b.hostname } ::ₘ m4) with hD
  -- step 1 of the revert: remove a′ from (b.hostname, ta); result S3
  have step1 : removeFromHostA b.hostname a.bluestore_bdev_type
      { a with hostname := b.hostname } D = .ok S3 := by
    obtain ⟨B3, hB3, _⟩ := lookupAL_isSome_of_getBucket hg4
    refine removeFromHostA_ok_iff.mpr
      ⟨{ a with hostname := b.hostname } ::ₘ m4,
        getBucket_setBucket_self hg4 _, Multiset.mem_cons_self _ _, ?_⟩
    rw [Multiset.erase_cons_head, hD, setBucket_setBucket_same hB3,
      setBucket_getBucket_self hg4]
  -- step 2: remove b′ from (a.hostname, tb); result S2
  have step2 : removeFromHostA a.hostname b.bluestore_bdev_type
      { b with hostname := a.hostname } S3 = .ok S2 := by
    obtain ⟨B2, hB2, _⟩ := lookupAL_isSome_of_getBucket hg3
    refine removeFromHostA_ok_iff.mpr
      ⟨{ b with hostname := a.hostname } ::ₘ m3,
        getBucket_setBucket_self hg3 _, Multiset.mem_cons_self _ _, ?_⟩
    rw [Multiset.erase_cons_head, hS3, setBucket_setBucket_same hB2,
      setBucket_getBucket_self hg3]
  -- step 3: append b back to (b.hostname, tb); result S1
  have step3 : appendToHostA b.hostname b.bluestore_bdev_type b S2 = .ok S1 := by
    obtain ⟨B1, hB1, _⟩ := lookupAL_isSome_of_getBucket hg2
    refine appendToHostA_ok_iff.mpr ⟨m2.erase b, getBucket_setBucket_self hg2 _, ?_⟩
    rw [Multiset.cons_erase hb2, hS2, setBucket_setBucket_same hB1,
      setBucket_getBucket_self hg2]
  -- step 4: append a back to (a.hostname, ta); result A
  have step4 : appendToHostA a.hostname a.bluestore_bdev_type a S1 = .ok A := by
    obtain ⟨B0, hB0, _⟩ := lookupAL_isSome_of_getBucket hg1
    refine appendToHostA_ok_iff.mpr ⟨m1.erase a, getBucket_setBucket_self hg1 _, ?_⟩
    rw [Multiset.cons_erase ha1, hS1, setBucket_setBucket_same hB0,
      setBucket_getBucket_self hg1]
  -- assemble
  have hlbD : ∃ B, lookupAL b.hostname D = some B := by
    have h0 : (lookupAL b.hostname D).isSome = true := by
      rw [hD, lookupAL_setBucket_isSome, hS3, lookupAL_setBucket_isSome, hS2,
        lookupAL_setBucket_isSome, hS1, lookupAL_setBucket_isSome, hlb]
      rfl
    exact Option.isSome_iff_exists.mp h0
  have hlaD : ∃ B, lookupAL a.hostname D = some B := by
    have h0 : (lookupAL a.hostname D).isSome = true := by
      rw [hD, lookupAL_setBucket_isSome, hS3, lookupAL_setBucket_isSome, hS2,
        lookupAL_setBucket_isSome, hS1, lookupAL_setBucket_isSome, hla]
      rfl
    exact Option.isSome_iff_exists.mp h0
  obtain ⟨BD1, hBD1⟩ := hlbD
  obtain ⟨BD2, hBD2⟩ := hlaD
  rw [swapA]
  show (match lookupAL b.hostname D with
    | none => Except.error "StopIteration"
    | some _ =>
      match lookupAL a.hostname D with
      | none => Except.error "StopIteration"
      | some _ => _) = Except.ok A
  rw [hBD1, hBD2]
  show (removeFromHostA b.hostname a.bluestore_bdev_type
      { a with hostname := b.hostname } D).bind _ = Except.ok A
  rw [step1]
  show (removeFromHostA a.hostname b.bluestore_bdev_type
      { b with hostname := a.hostname } S3).bind _ = Except.ok A
  rw [step2]
  show (appendToHostA b.hostname b.bluestore_bdev_type b S2).bind _ = Except.ok A
  rw [step3]
  show (appendToHostA a.hostname a.bluestore_bdev_type a S1).bind _ = Except.ok A
  rw [step4]
  rfl

/-! ## Transfer back to the source level -/

/-- Two topologies with the same multiset view behave identically under
`swap_osd`: success transfers, the returned records agree, and the results
again share their multiset view. -/
theorem swap_osd_congr {s u : List CephHost} (hsu : αTopo s = αTopo u)
    {a b : CephOsd} {t : List CephHost} {a' b' : CephOsd}
    (h : swap_osd s a b = .ok (t, a', b')) :
    ∃ u', swap_osd u a b = .ok (u', a', b') ∧ αTopo u' = αTopo t := by
  obtain ⟨A, hA, hrel⟩ := (swap_osd_alpha s a b).ok_left h
  obtain ⟨ht, ha', hb'⟩ := hrel
  dsimp only at ht ha' hb'
  have hu : swapA (αTopo u) a b = .ok A := by rw [← hsu, hA]
  obtain ⟨r, hr, hrel'⟩ := (swap_osd_alpha u a b).ok_right hu
  obtain ⟨ht', ha'', hb''⟩ := hrel'
  have hre : (r.1, a', b') = r := by rw [ha', ← ha'', hb', ← hb'']
  exact ⟨r.1, by rw [hr, ← hre], by rw [ht', ht]⟩

/-- At the source level: if a swap succeeded, swapping the two updated
records back also succeeds, returns the original records, and restores the
topology up to bucket-internal order. -/
theorem swap_osd_revert {s t : List CephHost} {a b : CephOsd} {a' b' : CephOsd}
    (h : swap_osd s a b = .ok (t, a', b')) :
    ∃ t', swap_osd t a' b' = .ok (t', a, b) ∧ αTopo t' = αTopo s := by
  obtain ⟨A, hA, hrel⟩ := (swap_osd_alpha s a b).ok_left h
  obtain ⟨ht, ha', hb'⟩ := hrel
  dsimp only at ht ha' hb'
  have hrev : swapA (αTopo t) a' b' = .ok (αTopo s) := by
    rw [ht, ha', hb']
    exact swapA_revert hA
  obtain ⟨r, hr, hrel'⟩ := (swap_osd_alpha t a' b').ok_right hrev
  obtain ⟨ht', ha'', hb''⟩ := hrel'
  have hra : r.2.1 = a := by rw [ha'', ha', hb']
  have hrb : r.2.2 = b := by rw [hb'', ha', hb']
  have hre : (r.1, a, b) = r := by rw [← hra, ← hrb]
  exact ⟨r.1, by rw [hr, ← hre], ht'⟩

/-! ## The balance metric through the multiset view -/

/-- `bucketTotal` at the multiset level. -/
def bucketTotalM (m : Multiset CephOsd) : Int :=
  Int.fdiv ((m.map (fun o => o.bluestore_bdev_size)).sum) (10 ^ 9)

/-- The `(tier, floored total)` entry sequence at the multiset level. -/
def entriesA (A : ATopo) : List (String × Int) :=
  A.flatMap (fun p => p.2.map (fun q => (q.1, bucketTotalM q.2)))

/-- `total_sizes_by_type` at the multiset level. -/
def totalsA (A : ATopo) : List (String × List Int) :=
  (entriesA A).foldl (fun acc p => appendAL p.1 p.2 acc) []

theorem bucketTotal_alpha (l : List CephOsd) :
    bucketTotal l = bucketTotalM (l : Multiset CephOsd) := by
  rw [bucketTotal, bucketTotalM, Multiset.map_coe, Multiset.sum_coe]

theorem hostEntries_alpha (h : CephHost) :
    hostEntries h = (αBuckets h.osd_by_type).map
      (fun q => (q.1, bucketTotalM q.2)) := by
  rw [hostEntries, αBuckets, List.map_map]
  exact List.map_congr_left (fun p _ => by
    simp [Function.comp, bucketTotal_alpha])

theorem total_sizes_alpha (s : List CephHost) :
    total_sizes_by_type s = totalsA (αTopo s) := by
  rw [total_sizes_by_type, totalsA, entriesA, αTopo, List.flatMap_map]
  congr 1
  exact List.flatMap_congr (fun h _ => hostEntries_alpha h)

/-- The spread is a function of the multiset view alone. -/
theorem spread_alpha_congr {s u : List CephHost} (h : αTopo s = αTopo u) :
    calculate_spread_by_type s = calculate_spread_by_type u := by
  rw [calculate_spread_by_type, calculate_spread_by_type,
    total_sizes_alpha, total_sizes_alpha, h]

/-! ## Key structure of the totals dict -/

theorem appendAL_keys {β : Type} (k : String) (x : β) (l : List (String × List β)) :
    (appendAL k x l).map Prod.fst =
      if k ∈ l.map Prod.fst then l.map Prod.fst else l.map Prod.fst ++ [k] := by
  induction l with
  | nil => simp [appendAL]
  | cons p rest ih =>
    obtain ⟨k', v⟩ := p
    by_cases h : k' = k
    · subst h
      simp [appendAL]
    · simp only [appendAL, if_neg h, List.map_cons, List.mem_cons]
      rw [ih]
      by_cases hmem : k ∈ rest.map Prod.fst
      · rw [if_pos hmem, if_pos (Or.inr hmem)]
      · rw [if_neg hmem, if_neg (by rintro (rfl | hc) <;> [exact h rfl; exact hmem hc])]
        simp

theorem foldl_appendAL_keys {β γ : Type} :
    ∀ (e1 : List (String × β)) (e2 : List (String × γ))
      (acc1 : List (String × List β)) (acc2 : List (String × List γ)),
      e1.map Prod.fst = e2.map Prod.fst →
      acc1.map Prod.fst = acc2.map Prod.fst →
      (e1.foldl (fun a p => appendAL p.1 p.2 a) acc1).map Prod.fst =
        (e2.foldl (fun a p => appendAL p.1 p.2 a) acc2).map Prod.fst
  | [], [], acc1, acc2, _, hacc => hacc
  | [], q :: e2, acc1, acc2, he, _ => by simp at he
  | p :: e1, [], acc1, acc2, he, _ => by simp at he
  | p :: e1, q :: e2, acc1, acc2, he, hacc => by
    simp only [List.map_cons, List.cons.injEq] at he
    refine foldl_appendAL_keys e1 e2 _ _ he.2 ?_
    rw [appendAL_keys, appendAL_keys, hacc, he.1]

theorem foldl_appendAL_keys_nodup {β : Type} :
    ∀ (e : List (String × β)) (acc : List (String × List β)),
      (acc.map Prod.fst).Nodup →
      ((e.foldl (fun a p => appendAL p.1 p.2 a) acc).map Prod.fst).Nodup
  | [], acc, h => h
  | p :: e, acc, h => by
    refine foldl_appendAL_keys_nodup e _ ?_
    rw [appendAL_keys]
    by_cases hmem : p.1 ∈ acc.map Prod.fst
    · rw [if_pos hmem]; exact h
    · rw [if_neg hmem]
      refine List.Nodup.append h (List.nodup_singleton _) ?_
      intro x hx hx'
      obtain rfl : x = p.1 := by simpa using hx'
      exact hmem hx

theorem total_sizes_keys_nodup (s : List CephHost) :
    ((total_sizes_by_type s).map Prod.fst).Nodup := by
  rw [total_sizes_by_type]
  exact foldl_appendAL_keys_nodup _ [] (by simp)

/-! ## Shape preservation under `swapA` -/

/-- Hostnames plus per-host bucket key lists — the part of the topology the
balance metric's key structure depends on. -/
def keysOf (A : ATopo) : List (String × List String) :=
  A.map (fun p => (p.1, p.2.map Prod.fst))

theorem keysOf_setAL {A : ATopo} {n : String} {B B' : ABuckets}
    (hkeys : B'.map Prod.fst = B.map Prod.fst) (hB : lookupAL n A = some B) :
    keysOf (setAL n B' A) = keysOf A := by
  induction A with
  | nil => rfl
  | cons p rest ih =>
    obtain ⟨k, v⟩ := p
    by_cases h : k = n
    · subst h
      rw [lookupAL, if_pos rfl] at hB
      obtain rfl : v = B := by simpa using hB
      simp [setAL, keysOf, hkeys]
    · rw [lookupAL, if_neg h] at hB
      have := ih hB
      simp only [keysOf, List.map_cons] at this ⊢
      rw [setAL, if_neg h]
      simp only [List.map_cons, this]

theorem keysOf_setBucket (A : ATopo) (n t : String) (m : Multiset CephOsd) :
    keysOf (setBucket A n t m) = keysOf A := by
  cases hB : lookupAL n A with
  | none => rw [setBucket_none hB]
  | some B =>
    rw [setBucket_some hB]
    exact keysOf_setAL (setAL_keys t m B) hB

/-- Successful `swapA` runs decompose into four bucket edits. -/
theorem swapA_ok_decomp {A D : ATopo} {a b : CephOsd} (h : swapA A a b = .ok D) :
    ∃ m1 m2 m3 m4,
      getBucket A a.hostname a.bluestore_bdev_type = some m1 ∧ a ∈ m1 ∧
      (let S1 := setBucket A a.hostname a.bluestore_bdev_type (m1.erase a)
       getBucket S1 b.hostname b.bluestore_bdev_type = some m2 ∧ b ∈ m2 ∧
       (let S2 := setBucket S1 b.hostname b.bluestore_bdev_type (m2.erase b)
        getBucket S2 a.hostname b.bluestore_bdev_type = some m3 ∧
        (let S3 := setBucket S2 a.hostname b.bluestore_bdev_type
          ({ b with hostname := a.hostname } ::ₘ m3)
         getBucket S3 b.hostname a.bluestore_bdev_type = some m4 ∧
         D = setBucket S3 b.hostname a.bluestore_bdev_type
           ({ a with hostname := b.hostname } ::ₘ m4)))) := by
  rw [swapA] at h
  cases hla : lookupAL a.hostname A with
  | none => rw [hla] at h; exact Except.noConfusion h
  | some Ba =>
  rw [hla] at h
  cases hlb : lookupAL b.hostname A with
  | none => rw [hlb] at h; exact Except.noConfusion h
  | some Bb =>
  rw [hlb] at h
  obtain ⟨S1, h1, h⟩ := bind_ok_elim h
  obtain ⟨S2, h2, h⟩ := bind_ok_elim h
  obtain ⟨S3, h3, h⟩ := bind_ok_elim h
  obtain ⟨S4, h4, h⟩ := bind_ok_elim h
  obtain rfl : S4 = D := by simpa using h
  obtain ⟨m1, hg1, ha1, rfl⟩ := removeFromHostA_ok_iff.mp h1
  obtain ⟨m2, hg2, hb2, rfl⟩ := removeFromHostA_ok_iff.mp h2
  obtain ⟨m3, hg3, rfl⟩ := appendToHostA_ok_iff.mp h3
  obtain ⟨m4, hg4, rfl⟩ := appendToHostA_ok_iff.mp h4
  exact ⟨m1, m2, m3, m4, hg1, ha1, hg2, hb2, hg3, hg4, rfl⟩

/-- A successful `swapA` changes no hostname and no bucket key. -/
theorem swapA_keysOf {A D : ATopo} {a b : CephOsd} (h : swapA A a b = .ok D) :
    keysOf D = keysOf A := by
  obtain ⟨m1, m2, m3, m4, _, _, _, _, _, _, rfl⟩ := swapA_ok_decomp h
  rw [keysOf_setBucket, keysOf_setBucket, keysOf_setBucket, keysOf_setBucket]

theorem entriesA_keys (A : ATopo) :
    (entriesA A).map Prod.fst = (keysOf A).flatMap Prod.snd := by
  rw [entriesA, keysOf, List.map_flatMap, List.flatMap_map]
  exact List.flatMap_congr (fun p _ => by simp)

/-- Topologies with the same key structure produce spreads with the same
key sequence. -/
theorem spread_keys_of_keysOf {s u : List CephHost}
    (h : keysOf (αTopo s) = keysOf (αTopo u)) :
    (calculate_spread_by_type s).map Prod.fst =
      (calculate_spread_by_type u).map Prod.fst := by
  rw [calculate_spread_by_type, calculate_spread_by_type, List.map_map,
    List.map_map]
  have : ∀ v : List CephHost, (total_sizes_by_type v).map
      (Prod.fst ∘ fun p => (p.1, npStd p.2)) = (total_sizes_by_type v).map Prod.fst := by
    intro v
    exact List.map_congr_left (fun p _ => rfl)
  rw [this, this, total_sizes_alpha, total_sizes_alpha, totalsA, totalsA]
  refine foldl_appendAL_keys _ _ [] [] ?_ rfl
  rw [entriesA_keys, entriesA_keys, h]

/-! ## The total improvement is the drop in total dispersion -/

theorem improvements_ignore_head {old : List (String × ℝ)} {k : String} {x : ℝ}
    {newSpread : List (String × ℝ)} (h : ∀ p ∈ old, p.1 ≠ k) :
    improvements old ((k, x) :: newSpread) = improvements old newSpread := by
  induction old with
  | nil => rfl
  | cons p rest ih =>
    rw [improvements, improvements, lookupAL,
      if_neg (fun hc => h p (by simp) hc.symm),
      ih (fun q hq => h q (by simp [hq]))]

theorem improvements_zipWith :
    ∀ {old newSpread : List (String × ℝ)},
      newSpread.map Prod.fst = old.map Prod.fst → (old.map Prod.fst).Nodup →
      improvements old newSpread =
        .ok (List.zipWith (fun p q => p.2 - q.2) old newSpread)
  | [], [], _, _ => rfl
  | [], q :: newSpread, hk, _ => by simp at hk
  | p :: old, [], hk, _ => by simp at hk
  | p :: old, q :: newSpread, hk, hnd => by
    simp only [List.map_cons, List.cons.injEq] at hk
    obtain ⟨hk1, hk2⟩ := hk
    simp only [List.map_cons, List.nodup_cons] at hnd
    obtain ⟨hp, hnd'⟩ := hnd
    rw [improvements, lookupAL, if_pos hk1,
      show improvements old (q :: newSpread) = improvements old newSpread from by
        rw [show (q : String × ℝ) = (q.1, q.2) from rfl]
        exact improvements_ignore_head (fun r hr hc => hp (by
          rw [← hk1, ← hc]; exact List.mem_map_of_mem Prod.fst hr)),
      improvements_zipWith hk2 hnd']
    rfl

theorem sum_zipWith_sub :
    ∀ (old newSpread : List (String × ℝ)), old.length = newSpread.length →
      (List.zipWith (fun (p q : String × ℝ) => p.2 - q.2) old newSpread).sum =
        (old.map Prod.snd).sum - (newSpread.map Prod.snd).sum
  | [], [], _ => by simp
  | [], q :: newSpread, h => by simp at h
  | p :: old, [], h => by simp at h
  | p :: old, q :: newSpread, h => by
    simp only [List.length_cons, Nat.succ.injEq] at h
    simp only [List.zipWith_cons_cons, List.sum_cons, List.map_cons]
    rw [sum_zipWith_sub old newSpread h]
    ring

/-- `sum(calculate_spread_by_type(hosts).values())` — the total dispersion. -/
noncomputable def sumSpread (s : List CephHost) : ℝ :=
  ((calculate_spread_by_type s).map Prod.snd).sum

/-- When the spread keys coincide (which swapping guarantees), a successful
`improvements` computation sums to the drop in total dispersion. -/
theorem improvements_sum_eq {s u : List CephHost} {imps : List ℝ}
    (hk : (calculate_spread_by_type u).map Prod.fst =
      (calculate_spread_by_type s).map Prod.fst)
    (h : improvements (calculate_spread_by_type s) (calculate_spread_by_type u) =
      .ok imps) :
    imps.sum = sumSpread s - sumSpread u := by
  have hnd : ((calculate_spread_by_type s).map Prod.fst).Nodup := by
    rw [calculate_spread_by_type, List.map_map]
    have : (total_sizes_by_type s).map (Prod.fst ∘ fun p => (p.1, npStd p.2)) =
        (total_sizes_by_type s).map Prod.fst :=
      List.map_congr_left (fun p _ => rfl)
    rw [this]
    exact total_sizes_keys_nodup s
  rw [improvements_zipWith hk hnd] at h
  obtain rfl : _ = imps := by simpa using h
  rw [sumSpread, sumSpread]
  refine sum_zipWith_sub _ _ ?_
  have := congrArg List.length hk
  simpa using this.symm

/-! ## Specification of `find_best_swap`'s search -/

/-- The score Swap Search computes for one candidate pair on topology `s`:
hypothetically swap and collect the per-tier improvements relative to `s`'s
spread (`none` when the hypothetical swap or a lookup raises). -/
noncomputable def scoreSwap (s : List CephHost) (a b : CephOsd) :
    Option (List ℝ) :=
  match swap_osd s a b with
  | .error _ => none
  | .ok (s1, _, _) =>
    match improvements (calculate_spread_by_type s)
        (calculate_spread_by_type s1) with
    | .ok imps => some imps
    | .error _ => none

/-- A candidate passes the acceptance rule of lines 111 and 125: it is not
skipped as a no-op, its evaluation raises no error, its total improvement is
strictly positive, and no tier worsens. -/
def Qualifies (s : List CephHost) (a b : CephOsd) : Prop :=
  ¬Skipped a b ∧ ∃ imps, scoreSwap s a b = some imps ∧ 0 < imps.sum ∧
    ∀ x ∈ imps, 0 ≤ x

/-- The pairs enumerated by the nested loops of `find_best_swap`: an OSD of
some host and an OSD of some distinct host. -/
def IsCandidate (s : List CephHost) (a b : CephOsd) : Prop :=
  ∃ na nb, na ∈ s.map CephHost.hostname ∧ nb ∈ s.map CephHost.hostname ∧
    na ≠ nb ∧ a ∈ osdsOfHost s na ∧ b ∈ osdsOfHost s nb

/-- The loop invariant of the search: the mutated host list stays equal to
the input up to bucket order, and the recorded best (if any) is a qualifying
candidate whose score is the recorded `highest_spread_improvement`. -/
def Inv (s₀ : List CephHost) (st : SearchState) : Prop :=
  αTopo st.hosts = αTopo s₀ ∧
  (st.best = none → st.highest = ⊥) ∧
  (∀ a b, st.best = some (a, b) →
    IsCandidate s₀ a b ∧
    ∃ imps, scoreSwap s₀ a b = some imps ∧ ¬Skipped a b ∧ 0 < imps.sum ∧
      (∀ x ∈ imps, 0 ≤ x) ∧ st.highest = (imps.sum : EReal))

theorem osdsOfHost_alpha (s : List CephHost) (n : String) :
    (osdsOfHost s n : Multiset CephOsd) =
      (match lookupAL n (αTopo s) with
       | some B => (B.map Prod.snd).sum
       | none => 0) := by
  rw [osdsOfHost, lookupAL_alphaTopo]
  cases findHost s n with
  | none => rfl
  | some h =>
    show ↑((h.osd_by_type.map Prod.snd).flatten) =
      ((αBuckets h.osd_by_type).map Prod.snd).sum
    rw [αBuckets, List.map_map]
    induction h.osd_by_type with
    | nil => rfl
    | cons p rest ih =>
      simp only [List.map_cons, List.flatten_cons, List.sum_cons, ← ih,
        Function.comp]
      rw [← Multiset.coe_add]

theorem mem_osdsOfHost_congr {s u : List CephHost} (h : αTopo s = αTopo u)
    (n : String) (x : CephOsd) : x ∈ osdsOfHost s n ↔ x ∈ osdsOfHost u n := by
  rw [← Multiset.mem_coe, ← Multiset.mem_coe, osdsOfHost_alpha,
    osdsOfHost_alpha, h]

theorem alphaTopo_names (s : List CephHost) :
    (αTopo s).map Prod.fst = s.map CephHost.hostname := by
  rw [αTopo, List.map_map]
  exact List.map_congr_left (fun h _ => rfl)

/-- What one candidate evaluation guarantees: the invariant is maintained,
`highest` never decreases, a recorded best never disappears, and a
qualifying candidate forces `highest` to cover its score. -/
theorem evalCandidate_inv {s₀ : List CephHost} {st st' : SearchState}
    {a b : CephOsd} (hcand : IsCandidate s₀ a b) (hinv : Inv s₀ st)
    (h : evalCandidate (calculate_spread_by_type s₀) a b st = .ok st') :
    Inv s₀ st' ∧ st.highest ≤ st'.highest ∧
      (st'.best = none → st.best = none) ∧
      (Qualifies s₀ a b →
        ∃ imps, scoreSwap s₀ a b = some imps ∧
          (imps.sum : EReal) ≤ st'.highest) := by
  obtain ⟨hα, hnone, hsome⟩ := hinv
  rw [evalCandidate] at h
  by_cases hsk : Skipped a b
  · rw [if_pos hsk] at h
    obtain rfl : st = st' := by simpa using h
    exact ⟨⟨hα, hnone, hsome⟩, le_refl _, fun h => h,
      fun hq => absurd hsk hq.1⟩
  · rw [if_neg hsk] at h
    obtain ⟨⟨h1, a1, b1⟩, hs1, h⟩ := bind_ok_elim h
    obtain ⟨imps, himp, h⟩ := bind_ok_elim h
    obtain ⟨⟨h2, a2, b2⟩, hs2, h⟩ := bind_ok_elim h
    -- the score of (a, b) on s₀ is exactly the score just computed
    obtain ⟨u', hu', hαu⟩ := swap_osd_congr hα hs1
    have hspread : calculate_spread_by_type u' = calculate_spread_by_type h1 :=
      spread_alpha_congr hαu
    have hscore : scoreSwap s₀ a b = some imps := by
      simp only [scoreSwap, hu', hspread, himp]
    -- the revert restores the multiset topology
    obtain ⟨t', ht', hαt⟩ := swap_osd_revert hs1
    have hpair : (h2, a2, b2) = (t', a, b) := by
      rw [hs2] at ht'
      simpa using ht'
    have hα2 : αTopo h2 = αTopo s₀ := by
      rw [show h2 = t' from congrArg Prod.fst hpair, hαt, hα]
    replace h : (if 0 < imps.sum ∧ (imps.sum : EReal) > st.highest ∧
        ∀ imp ∈ imps, 0 ≤ imp then
        (Except.ok { best := some (a, b), highest := (imps.sum : EReal), hosts := h2 } : Except String SearchState)
      else .ok { best := st.best, highest := st.highest, hosts := h2 }) =
        .ok st' := h
    by_cases hc : 0 < imps.sum ∧ (imps.sum : EReal) > st.highest ∧
        ∀ imp ∈ imps, 0 ≤ imp
    · rw [if_pos hc] at h
      replace h := Except.ok.inj h
      subst h
      refine ⟨⟨hα2, ?_, ?_⟩, le_of_lt hc.2.1, ?_, ?_⟩
      · intro hx
        exact Option.noConfusion hx
      · intro a' b' hab
        have hp : (a, b) = (a', b') := Option.some.inj hab
        obtain rfl : a = a' := congrArg Prod.fst hp
        obtain rfl : b = b' := congrArg Prod.snd hp
        exact ⟨hcand, imps, hscore, hsk, hc.1, hc.2.2, rfl⟩
      · intro hx
        exact Option.noConfusion hx
      · intro _
        exact ⟨imps, hscore, le_refl _⟩
    · rw [if_neg hc] at h
      replace h := Except.ok.inj h
      subst h
      refine ⟨⟨hα2, hnone, hsome⟩, le_refl _, fun hx => hx, ?_⟩
      intro hq
      obtain ⟨_, imps', hscore', hpos, hok⟩ := hq
      obtain rfl : imps = imps' := by
        rw [hscore] at hscore'
        simpa using hscore'
      refine ⟨imps, hscore, ?_⟩
      by_contra hlt
      exact hc ⟨hpos, lt_of_not_le hlt, hok⟩

theorem loopOsdB_inv {s₀ : List CephHost} {osd_a : CephOsd} :
    ∀ {bs : List CephOsd} {st st' : SearchState},
      (∀ b ∈ bs, IsCandidate s₀ osd_a b) → Inv s₀ st →
      loopOsdB (calculate_spread_by_type s₀) osd_a bs st = .ok st' →
      Inv s₀ st' ∧ st.highest ≤ st'.highest ∧
        (st'.best = none → st.best = none) ∧
        ∀ b ∈ bs, Qualifies s₀ osd_a b →
          ∃ imps, scoreSwap s₀ osd_a b = some imps ∧
            (imps.sum : EReal) ≤ st'.highest
  | [], st, st', _, hinv, h => by
    obtain rfl : st = st' := by rw [loopOsdB] at h; simpa using h
    exact ⟨hinv, le_refl _, fun hx => hx, by simp⟩
  | b :: bs, st, st', hcand, hinv, h => by
    rw [loopOsdB] at h
    obtain ⟨st1, h1, h⟩ := bind_ok_elim h
    obtain ⟨hinv1, hm1, hb1, hq1⟩ :=
      evalCandidate_inv (hcand b (by simp)) hinv h1
    obtain ⟨hinv2, hm2, hb2, hq2⟩ :=
      loopOsdB_inv (fun b' hb' => hcand b' (by simp [hb'])) hinv1 h
    refine ⟨hinv2, le_trans hm1 hm2, fun hx => hb1 (hb2 hx), ?_⟩
    intro b' hb' hqual
    rcases List.mem_cons.mp hb' with rfl | hmem
    · obtain ⟨imps, hs, hle⟩ := hq1 hqual
      exact ⟨imps, hs, le_trans hle hm2⟩
    · exact hq2 b' hmem hqual

theorem loopOsdA_inv {s₀ : List CephHost} :
    ∀ {as_ bs : List CephOsd} {st st' : SearchState},
      (∀ a ∈ as_, ∀ b ∈ bs, IsCandidate s₀ a b) → Inv s₀ st →
      loopOsdA (calculate_spread_by_type s₀) as_ bs st = .ok st' →
      Inv s₀ st' ∧ st.highest ≤ st'.highest ∧
        (st'.best = none → st.best = none) ∧
        ∀ a ∈ as_, ∀ b ∈ bs, Qualifies s₀ a b →
          ∃ imps, scoreSwap s₀ a b = some imps ∧
            (imps.sum : EReal) ≤ st'.highest
  | [], bs, st, st', _, hinv, h => by
    obtain rfl : st = st' := by rw [loopOsdA] at h; simpa using h
    exact ⟨hinv, le_refl _, fun hx => hx, by simp⟩
  | a :: as_, bs, st, st', hcand, hinv, h => by
    rw [loopOsdA] at h
    obtain ⟨st1, h1, h⟩ := bind_ok_elim h
    obtain ⟨hinv1, hm1, hb1, hq1⟩ :=
      loopOsdB_inv (hcand a (by simp)) hinv h1
    obtain ⟨hinv2, hm2, hb2, hq2⟩ :=
      loopOsdA_inv (fun a' ha' => hcand a' (by simp [ha'])) hinv1 h
    refine ⟨hinv2, le_trans hm1 hm2, fun hx => hb1 (hb2 hx), ?_⟩
    intro a' ha' b hb hqual
    rcases List.mem_cons.mp ha' with rfl | hmem
    · obtain ⟨imps, hs, hle⟩ := hq1 b hb hqual
      exact ⟨imps, hs, le_trans hle hm2⟩
    · exact hq2 a' hmem b hb hqual

theorem loopHostB_inv {s₀ : List CephHost} {na : String}
    (hna : na ∈ s₀.map CephHost.hostname) :
    ∀ {nbs : List String} {st st' : SearchState},
      (∀ nb ∈ nbs, nb ∈ s₀.map CephHost.hostname) → Inv s₀ st →
      loopHostB (calculate_spread_by_type s₀) na nbs st = .ok st' →
      Inv s₀ st' ∧ st.highest ≤ st'.highest ∧
        (st'.best = none → st.best = none) ∧
        ∀ nb ∈ nbs, na ≠ nb →
          ∀ a ∈ osdsOfHost s₀ na, ∀ b ∈ osdsOfHost s₀ nb, Qualifies s₀ a b →
            ∃ imps, scoreSwap s₀ a b = some imps ∧
              (imps.sum : EReal) ≤ st'.highest
  | [], st, st', _, hinv, h => by
    obtain rfl : st = st' := by rw [loopHostB] at h; simpa using h
    exact ⟨hinv, le_refl _, fun hx => hx, by simp⟩
  | nb :: nbs, st, st', hnbs, hinv, h => by
    rw [loopHostB] at h
    by_cases hnn : na = nb
    · rw [if_pos hnn] at h
      obtain ⟨st1, h1, h⟩ := bind_ok_elim h
      obtain rfl : st = st1 := by simpa using h1
      obtain ⟨hinv2, hm2, hb2, hq2⟩ :=
        loopHostB_inv hna (fun nb' hnb' => hnbs nb' (by simp [hnb'])) hinv h
      refine ⟨hinv2, hm2, hb2, ?_⟩
      intro nb' hnb' hne
      rcases List.mem_cons.mp hnb' with rfl | hmem
      · exact absurd hnn hne
      · exact hq2 nb' hmem hne
    · rw [if_neg hnn] at h
      obtain ⟨st1, h1, h⟩ := bind_ok_elim h
      have hcand : ∀ a ∈ osdsOfHost st.hosts na, ∀ b ∈ osdsOfHost st.hosts nb,
          IsCandidate s₀ a b := by
        intro a ha b hb
        exact ⟨na, nb, hna, hnbs nb (by simp), hnn,
          (mem_osdsOfHost_congr hinv.1 na a).mp ha,
          (mem_osdsOfHost_congr hinv.1 nb b).mp hb⟩
      obtain ⟨hinv1, hm1, hb1, hq1⟩ := loopOsdA_inv hcand hinv h1
      obtain ⟨hinv2, hm2, hb2, hq2⟩ :=
        loopHostB_inv hna (fun nb' hnb' => hnbs nb' (by simp [hnb'])) hinv1 h
      refine ⟨hinv2, le_trans hm1 hm2, fun hx => hb1 (hb2 hx), ?_⟩
      intro nb' hnb' hne a ha b hb hqual
      rcases List.mem_cons.mp hnb' with rfl | hmem
      · have ha' : a ∈ osdsOfHost st.hosts na :=
          (mem_osdsOfHost_congr hinv.1 na a).mpr ha
        have hb' : b ∈ osdsOfHost st.hosts nb' :=
          (mem_osdsOfHost_congr hinv.1 nb' b).mpr hb
        obtain ⟨imps, hs, hle⟩ := hq1 a ha' b hb' hqual
        exact ⟨imps, hs, le_trans hle hm2⟩
      · exact hq2 nb' hmem hne a ha b hb hqual

theorem loopHostA_inv {s₀ : List CephHost} {names : List String}
    (hnames : ∀ n ∈ names, n ∈ s₀.map CephHost.hostname) :
    ∀ {nas : List String} {st st' : SearchState},
      (∀ n ∈ nas, n ∈ s₀.map CephHost.hostname) → Inv s₀ st →
      loopHostA (calculate_spread_by_type s₀) names nas st = .ok st' →
      Inv s₀ st' ∧ st.highest ≤ st'.highest ∧
        (st'.best = none → st.best = none) ∧
        ∀ na ∈ nas, ∀ nb ∈ names, na ≠ nb →
          ∀ a ∈ osdsOfHost s₀ na, ∀ b ∈ osdsOfHost s₀ nb, Qualifies s₀ a b →
            ∃ imps, scoreSwap s₀ a b = some imps ∧
              (imps.sum : EReal) ≤ st'.highest
  | [], st, st', _, hinv, h => by
    obtain rfl : st = st' := by rw [loopHostA] at h; simpa using h
    exact ⟨hinv, le_refl _, fun hx => hx, by simp⟩
  | na :: nas, st, st', hnas, hinv, h => by
    rw [loopHostA] at h
    obtain ⟨st1, h1, h⟩ := bind_ok_elim h
    obtain ⟨hinv1, hm1, hb1, hq1⟩ :=
      loopHostB_inv (hnas na (by simp)) hnames hinv h1
    obtain ⟨hinv2, hm2, hb2, hq2⟩ :=
      loopHostA_inv hnames (fun n hn => hnas n (by simp [hn])) hinv1 h
    refine ⟨hinv2, le_trans hm1 hm2, fun hx => hb1 (hb2 hx), ?_⟩
    intro na' hna' nb hnb hne a ha b hb hqual
    rcases List.mem_cons.mp hna' with rfl | hmem
    · obtain ⟨imps, hs, hle⟩ := hq1 nb hnb hne a ha b hb hqual
      exact ⟨imps, hs, le_trans hle hm2⟩
    · exact hq2 na' hmem nb hnb hne a ha b hb hqual

/-- The master specification of `find_best_swap`: the final (side-effected)
host list equals the input up to bucket order; a returned pair is a
qualifying candidate whose total improvement is maximal among all
qualifying candidates; `none` is returned exactly when no candidate
qualifies. -/
theorem find_best_swap_core {s₀ : List CephHost}
    {r : Option (CephOsd × CephOsd)} {s' : List CephHost}
    (h : find_best_swap s₀ = .ok (r, s')) :
    αTopo s' = αTopo s₀ ∧
    (∀ a b, r = some (a, b) →
      IsCandidate s₀ a b ∧
      ∃ imps, scoreSwap s₀ a b = some imps ∧ ¬Skipped a b ∧ 0 < imps.sum ∧
        (∀ x ∈ imps, 0 ≤ x) ∧
        ∀ a' b', IsCandidate s₀ a' b' → Qualifies s₀ a' b' →
          ∀ imps', scoreSwap s₀ a' b' = some imps' → imps'.sum ≤ imps.sum) ∧
    (r = none → ∀ a b, IsCandidate s₀ a b → ¬Qualifies s₀ a b) := by
  rw [find_best_swap] at h
  obtain ⟨stf, hst, h⟩ := bind_ok_elim h
  have hrs : (stf.best, stf.hosts) = (r, s') := by simpa using h
  obtain rfl : stf.best = r := congrArg Prod.fst hrs
  obtain rfl : stf.hosts = s' := congrArg Prod.snd hrs
  have hinit : Inv s₀ { best := none, highest := ⊥, hosts := s₀ } :=
    ⟨rfl, fun _ => rfl, fun a b hab => Option.noConfusion hab⟩
  obtain ⟨⟨hαf, hnonef, hsomef⟩, _, _, hqf⟩ :=
    loopHostA_inv (fun n hn => hn) (fun n hn => hn) hinit hst
  refine ⟨hαf, ?_, ?_⟩
  · intro a b hab
    obtain ⟨hcand', imps, hs, hnsk, hpos, hok, hhigh⟩ := hsomef a b hab
    refine ⟨hcand', imps, hs, hnsk, hpos, hok, ?_⟩
    intro a' b' hcand hqual imps' hs'
    obtain ⟨na, nb, hna, hnb, hne, hma, hmb⟩ := hcand
    obtain ⟨imps'', hs'', hle⟩ := hqf na hna nb hnb hne a' hma b' hmb hqual
    obtain rfl : imps' = imps'' := by rw [hs'] at hs''; simpa using hs''
    rw [hhigh] at hle
    exact_mod_cast hle
  · intro hnone a b hcand hqual
    obtain ⟨na, nb, hna, hnb, hne, hma, hmb⟩ := hcand
    obtain ⟨imps, _, hle⟩ := hqf na hna nb hnb hne a hma b hmb hqual
    rw [hnonef hnone] at hle
    exact absurd hle (by simp)

theorem scoreSwap_some_elim {s : List CephHost} {a b : CephOsd} {imps : List ℝ}
    (h : scoreSwap s a b = some imps) :
    ∃ s1 a1 b1, swap_osd s a b = .ok (s1, a1, b1) ∧
      improvements (calculate_spread_by_type s) (calculate_spread_by_type s1) =
        .ok imps := by
  cases hs : swap_osd s a b with
  | error e =>
    rw [scoreSwap, hs] at h
    exact Option.noConfusion h
  | ok v =>
    obtain ⟨s1, a1, b1⟩ := v
    rw [scoreSwap, hs] at h
    replace h : (match improvements (calculate_spread_by_type s)
        (calculate_spread_by_type s1) with
      | .ok imps => some imps
      | .error _ => none) = some imps := h
    cases himp : improvements (calculate_spread_by_type s)
        (calculate_spread_by_type s1) with
    | ok imps' =>
      rw [himp] at h
      obtain rfl : imps' = imps := by simpa using h
      exact ⟨s1, a1, b1, rfl, himp⟩
    | error e =>
      rw [himp] at h
      exact Option.noConfusion h

/-! ## The enumeration order of the search, and its tie-breaking -/

/-- The candidate pairs visited while `loopHostB` processes the inner
host loop for `host_a = na`, in visit order: for each distinct `nb`, the
snapshot of `na`'s OSDs paired with the snapshot of `nb`'s OSDs (both
taken from the current, mutated host list, exactly as lines 104-105 do);
the state is advanced by the search's own `loopOsdA`. -/
noncomputable def traceHostB (orig : List (String × ℝ)) (na : String) :
    List String → SearchState → Except String (List (CephOsd × CephOsd))
  | [], _ => .ok []
  | nb :: rest, st =>
    if na = nb then traceHostB orig na rest st
    else do
      let st' ← loopOsdA orig (osdsOfHost st.hosts na) (osdsOfHost st.hosts nb) st
      let tr ← traceHostB orig na rest st'
      .ok ((osdsOfHost st.hosts na).flatMap
        (fun a => (osdsOfHost st.hosts nb).map (fun b => (a, b))) ++ tr)

/-- The candidate pairs visited by the whole search, in visit order
(host-pair order, then device order within each host's snapshot). -/
noncomputable def traceHostA (orig : List (String × ℝ)) (names : List String) :
    List String → SearchState → Except String (List (CephOsd × CephOsd))
  | [], _ => .ok []
  | na :: rest, st => do
    let st' ← loopHostB orig na names st
    let tr1 ← traceHostB orig na names st
    let tr2 ← traceHostA orig names rest st'
    .ok (tr1 ++ tr2)

/-- The enumeration sequence of one `find_best_swap` call: every ordered
candidate pair the nested loops visit, in the order they are visited. -/
noncomputable def searchTrace (hosts : List CephHost) :
    Except String (List (CephOsd × CephOsd)) :=
  traceHostA (calculate_spread_by_type hosts)
    (hosts.map (fun h => h.hostname)) (hosts.map (fun h => h.hostname))
    { best := none, highest := ⊥, hosts := hosts }

/-- A candidate's total improvement, as an extended real (`⊥` when its
evaluation raises). -/
noncomputable def scoreVal (s : List CephHost) (a b : CephOsd) : EReal :=
  match scoreSwap s a b with
  | some imps => ((imps.sum : ℝ) : EReal)
  | none => ⊥

/-- What processing one visited segment `tr` does to the running best:
either no candidate of the segment beat the incumbent (best and highest
unchanged, every qualifying candidate of the segment scoring at most the
old highest), or the final best is some candidate `p` of the segment,
scoring its own total improvement, strictly above the old highest,
strictly above every qualifying candidate visited before it and at least
every one visited after it — the code's strict `>` on line 125 never
lets a tying candidate displace the incumbent. -/
def ProcSeg (s₀ : List CephHost) (tr : List (CephOsd × CephOsd))
    (st st' : SearchState) : Prop :=
  (st'.best = st.best ∧ st'.highest = st.highest ∧
    ∀ q ∈ tr, Qualifies s₀ q.1 q.2 → scoreVal s₀ q.1 q.2 ≤ st.highest) ∨
  (∃ pre p post, tr = pre ++ p :: post ∧
    st'.best = some p ∧ st'.highest = scoreVal s₀ p.1 p.2 ∧
    Qualifies s₀ p.1 p.2 ∧
    st.highest < st'.highest ∧
    (∀ q ∈ pre, Qualifies s₀ q.1 q.2 → scoreVal s₀ q.1 q.2 < st'.highest) ∧
    (∀ q ∈ post, Qualifies s₀ q.1 q.2 → scoreVal s₀ q.1 q.2 ≤ st'.highest))

theorem ProcSeg.append {s₀ : List CephHost}
    {tr1 tr2 : List (CephOsd × CephOsd)} {st st1 st2 : SearchState}
    (h1 : ProcSeg s₀ tr1 st st1) (h2 : ProcSeg s₀ tr2 st1 st2) :
    ProcSeg s₀ (tr1 ++ tr2) st st2 := by
  rcases h1 with ⟨hb1, hh1, hq1⟩ |
    ⟨pre1, p1, post1, rfl, hb1, hh1, hqual1, hlt1, hpre1, hpost1⟩
  · rcases h2 with ⟨hb2, hh2, hq2⟩ |
      ⟨pre2, p2, post2, rfl, hb2, hh2, hqual2, hlt2, hpre2, hpost2⟩
    · refine Or.inl ⟨hb2.trans hb1, hh2.trans hh1, ?_⟩
      intro q hq hqual
      rcases List.mem_append.mp hq with hmem | hmem
      · exact hq1 q hmem hqual
      · exact le_of_le_of_eq (hq2 q hmem hqual) hh1
    · refine Or.inr ⟨tr1 ++ pre2, p2, post2,
        (List.append_assoc tr1 pre2 (p2 :: post2)).symm,
        hb2, hh2, hqual2, lt_of_eq_of_lt hh1.symm hlt2, ?_, hpost2⟩
      intro q hq hqual
      rcases List.mem_append.mp hq with hmem | hmem
      · exact lt_of_le_of_lt (le_of_le_of_eq (hq1 q hmem hqual) hh1.symm) hlt2
      · exact hpre2 q hmem hqual
  · rcases h2 with ⟨hb2, hh2, hq2⟩ |
      ⟨pre2, p2, post2, rfl, hb2, hh2, hqual2, hlt2, hpre2, hpost2⟩
    · refine Or.inr ⟨pre1, p1, post1 ++ tr2,
        List.append_assoc pre1 (p1 :: post1) tr2,
        hb2.trans hb1, hh2.trans hh1, hqual1,
        lt_of_lt_of_eq hlt1 hh2.symm, ?_, ?_⟩
      · intro q hq hqual
        exact lt_of_lt_of_eq (hpre1 q hq hqual) hh2.symm
      · intro q hq hqual
        rcases List.mem_append.mp hq with hmem | hmem
        · exact le_of_le_of_eq (hpost1 q hmem hqual) hh2.symm
        · exact le_of_le_of_eq (hq2 q hmem hqual) hh2.symm
    · refine Or.inr ⟨(pre1 ++ p1 :: post1) ++ pre2, p2, post2,
        (List.append_assoc (pre1 ++ p1 :: post1) pre2 (p2 :: post2)).symm,
        hb2, hh2, hqual2, lt_trans hlt1 hlt2, ?_, hpost2⟩
      intro q hq hqual
      rcases List.mem_append.mp hq with hmem | hmem
      · rcases List.mem_append.mp hmem with hmem1 | hmem1
        · exact lt_trans (hpre1 q hmem1 hqual) hlt2
        · rcases List.mem_cons.mp hmem1 with rfl | hmem2
          · exact lt_of_eq_of_lt hh1.symm hlt2
          · exact lt_of_le_of_lt (hpost1 q hmem2 hqual) hlt2
      · exact hpre2 q hmem hqual

/-- One candidate evaluation, as a `ProcSeg` of its one-element segment. -/
theorem evalCandidate_seg {s₀ : List CephHost} {st st' : SearchState}
    {a b : CephOsd} (hα : αTopo st.hosts = αTopo s₀)
    (h : evalCandidate (calculate_spread_by_type s₀) a b st = .ok st') :
    αTopo st'.hosts = αTopo s₀ ∧ ProcSeg s₀ [(a, b)] st st' := by
  rw [evalCandidate] at h
  by_cases hsk : Skipped a b
  · rw [if_pos hsk] at h
    obtain rfl : st = st' := by simpa using h
    refine ⟨hα, Or.inl ⟨rfl, rfl, ?_⟩⟩
    intro q hq hqual
    obtain rfl : q = (a, b) := by simpa using hq
    exact absurd hsk hqual.1
  · rw [if_neg hsk] at h
    obtain ⟨⟨h1, a1, b1⟩, hs1, h⟩ := bind_ok_elim h
    obtain ⟨imps, himp, h⟩ := bind_ok_elim h
    obtain ⟨⟨h2, a2, b2⟩, hs2, h⟩ := bind_ok_elim h
    obtain ⟨u', hu', hαu⟩ := swap_osd_congr hα hs1
    have hspread : calculate_spread_by_type u' = calculate_spread_by_type h1 :=
      spread_alpha_congr hαu
    have hscore : scoreSwap s₀ a b = some imps := by
      simp only [scoreSwap, hu', hspread, himp]
    have hval : scoreVal s₀ a b = ((imps.sum : ℝ) : EReal) := by
      rw [scoreVal, hscore]
    obtain ⟨t', ht', hαt⟩ := swap_osd_revert hs1
    have hpair : (h2, a2, b2) = (t', a, b) := by
      rw [hs2] at ht'
      simpa using ht'
    have hα2 : αTopo h2 = αTopo s₀ := by
      rw [show h2 = t' from congrArg Prod.fst hpair, hαt, hα]
    replace h : (if 0 < imps.sum ∧ (imps.sum : EReal) > st.highest ∧
        ∀ imp ∈ imps, 0 ≤ imp then
        (Except.ok { best := some (a, b), highest := (imps.sum : EReal), hosts := h2 } : Except String SearchState)
      else .ok { best := st.best, highest := st.highest, hosts := h2 }) =
        .ok st' := h
    by_cases hc : 0 < imps.sum ∧ (imps.sum : EReal) > st.highest ∧
        ∀ imp ∈ imps, 0 ≤ imp
    · rw [if_pos hc] at h
      replace h := Except.ok.inj h
      subst h
      exact ⟨hα2, Or.inr ⟨[], (a, b), [], rfl, rfl, hval.symm,
        ⟨hsk, imps, hscore, hc.1, hc.2.2⟩, hc.2.1, by simp, by simp⟩⟩
    · rw [if_neg hc] at h
      replace h := Except.ok.inj h
      subst h
      refine ⟨hα2, Or.inl ⟨rfl, rfl, ?_⟩⟩
      intro q hq hqual
      obtain rfl : q = (a, b) := by simpa using hq
      obtain ⟨-, imps', hscore', hpos, hok⟩ := hqual
      obtain rfl : imps = imps' := by
        rw [hscore] at hscore'
        simpa using hscore'
      show scoreVal s₀ a b ≤ st.highest
      rw [hval]
      by_contra hlt
      exact hc ⟨hpos, lt_of_not_le hlt, hok⟩

theorem loopOsdB_seg {s₀ : List CephHost} {osd_a : CephOsd} :
    ∀ {bs : List CephOsd} {st st' : SearchState},
      αTopo st.hosts = αTopo s₀ →
      loopOsdB (calculate_spread_by_type s₀) osd_a bs st = .ok st' →
      αTopo st'.hosts = αTopo s₀ ∧
        ProcSeg s₀ (bs.map (fun b => (osd_a, b))) st st'
  | [], st, st', hα, h => by
    obtain rfl : st = st' := by rw [loopOsdB] at h; simpa using h
    exact ⟨hα, Or.inl ⟨rfl, rfl, by simp⟩⟩
  | b :: bs, st, st', hα, h => by
    rw [loopOsdB] at h
    obtain ⟨st1, h1, h⟩ := bind_ok_elim h
    obtain ⟨hα1, hseg1⟩ := evalCandidate_seg hα h1
    obtain ⟨hα2, hseg2⟩ := loopOsdB_seg hα1 h
    exact ⟨hα2, ProcSeg.append hseg1 hseg2⟩

theorem loopOsdA_seg {s₀ : List CephHost} :
    ∀ {as_ bs : List CephOsd} {st st' : SearchState},
      αTopo st.hosts = αTopo s₀ →
      loopOsdA (calculate_spread_by_type s₀) as_ bs st = .ok st' →
      αTopo st'.hosts = αTopo s₀ ∧
        ProcSeg s₀ (as_.flatMap (fun a => bs.map (fun b => (a, b)))) st st'
  | [], bs, st, st', hα, h => by
    obtain rfl : st = st' := by rw [loopOsdA] at h; simpa using h
    exact ⟨hα, Or.inl ⟨rfl, rfl, by simp⟩⟩
  | a :: as_, bs, st, st', hα, h => by
    rw [loopOsdA] at h
    obtain ⟨st1, h1, h⟩ := bind_ok_elim h
    obtain ⟨hα1, hseg1⟩ := loopOsdB_seg hα h1
    obtain ⟨hα2, hseg2⟩ := loopOsdA_seg hα1 h
    refine ⟨hα2, ?_⟩
    rw [List.flatMap_cons]
    exact ProcSeg.append hseg1 hseg2

theorem loopHostB_seg {s₀ : List CephHost} {na : String} :
    ∀ {nbs : List String} {st st' : SearchState},
      αTopo st.hosts = αTopo s₀ →
      loopHostB (calculate_spread_by_type s₀) na nbs st = .ok st' →
      ∃ tr, traceHostB (calculate_spread_by_type s₀) na nbs st = .ok tr ∧
        αTopo st'.hosts = αTopo s₀ ∧ ProcSeg s₀ tr st st'
  | [], st, st', hα, h => by
    obtain rfl : st = st' := by rw [loopHostB] at h; simpa using h
    exact ⟨[], rfl, hα, Or.inl ⟨rfl, rfl, by simp⟩⟩
  | nb :: nbs, st, st', hα, h => by
    rw [loopHostB] at h
    by_cases hnn : na = nb
    · rw [if_pos hnn] at h
      obtain ⟨st1, h1, h⟩ := bind_ok_elim h
      obtain rfl : st = st1 := by simpa using h1
      obtain ⟨tr, htr, hα2, hseg⟩ := loopHostB_seg hα h
      refine ⟨tr, ?_, hα2, hseg⟩
      rw [traceHostB, if_pos hnn]
      exact htr
    · rw [if_neg hnn] at h
      obtain ⟨st1, h1, h⟩ := bind_ok_elim h
      obtain ⟨hα1, hseg1⟩ := loopOsdA_seg hα h1
      obtain ⟨tr2, htr2, hα2, hseg2⟩ := loopHostB_seg hα1 h
      refine ⟨_ ++ tr2, ?_, hα2, ProcSeg.append hseg1 hseg2⟩
      rw [traceHostB, if_neg hnn]
      show (loopOsdA _ _ _ _).bind _ = _
      rw [h1]
      show (traceHostB _ _ _ _).bind _ = _
      rw [htr2]
      rfl

theorem loopHostA_seg {s₀ : List CephHost} {names : List String} :
    ∀ {nas : List String} {st st' : SearchState},
      αTopo st.hosts = αTopo s₀ →
      loopHostA (calculate_spread_by_type s₀) names nas st = .ok st' →
      ∃ tr, traceHostA (calculate_spread_by_type s₀) names nas st = .ok tr ∧
        αTopo st'.hosts = αTopo s₀ ∧ ProcSeg s₀ tr st st'
  | [], st, st', hα, h => by
    obtain rfl : st = st' := by rw [loopHostA] at h; simpa using h
    exact ⟨[], rfl, hα, Or.inl ⟨rfl, rfl, by simp⟩⟩
  | na :: nas, st, st', hα, h => by
    rw [loopHostA] at h
    obtain ⟨st1, h1, h⟩ := bind_ok_elim h
    obtain ⟨tr1, htr1, hα1, hseg1⟩ := loopHostB_seg hα h1
    obtain ⟨tr2, htr2, hα2, hseg2⟩ := loopHostA_seg hα1 h
    refine ⟨tr1 ++ tr2, ?_, hα2, ProcSeg.append hseg1 hseg2⟩
    rw [traceHostA]
    show (loopHostB _ _ _ _).bind _ = _
    rw [h1]
    show (traceHostB _ _ _ _).bind _ = _
    rw [htr1]
    show (traceHostA _ _ _ _).bind _ = _
    rw [htr2]
    rfl

/-- **C5.**  One iteration of the optimizer loop: when `find_best_swap`
returns a pair (leaving the — only bucket-reordered — host list `s'`), the
search itself has not changed the total dispersion, applying the returned
swap for real succeeds, its per-tier improvements (recomputed exactly as
line 121 does) are all non-negative with a strictly positive sum, and the
total dispersion drops by exactly that sum; so the sum of per-tier
dispersions strictly decreases on every applied swap and is non-increasing
from one loop iteration to the next. -/
theorem c5_applied_swap_strictly_decreases_total_dispersion
    {s s' : List CephHost} {a b : CephOsd}
    (h : find_best_swap s = .ok (some (a, b), s')) :
    sumSpread s' = sumSpread s ∧
    ∃ s'' a' b' imps,
      swap_osd s' a b = .ok (s'', a', b') ∧
      improvements (calculate_spread_by_type s) (calculate_spread_by_type s'') =
        .ok imps ∧
      (∀ x ∈ imps, 0 ≤ x) ∧ 0 < imps.sum ∧
      sumSpread s'' = sumSpread s - imps.sum ∧
      sumSpread s'' < sumSpread s := by
  obtain ⟨hα, hsome, _⟩ := find_best_swap_core h
  obtain ⟨_, imps, hscore, _, hpos, hok, _⟩ := hsome a b rfl
  obtain ⟨u1, a1, b1, hsw, himp⟩ := scoreSwap_some_elim hscore
  obtain ⟨s'', hsw', hα''⟩ := swap_osd_congr hα.symm hsw
  have hsp : calculate_spread_by_type s'' = calculate_spread_by_type u1 :=
    spread_alpha_congr hα''
  have himp' : improvements (calculate_spread_by_type s)
      (calculate_spread_by_type s'') = .ok imps := by
    rw [hsp]
    exact himp
  have hkeys : keysOf (αTopo u1) = keysOf (αTopo s) := by
    obtain ⟨A, hA, hrel⟩ := (swap_osd_alpha s a b).ok_left hsw
    have h1 : αTopo u1 = A := hrel.1
    rw [h1]
    exact swapA_keysOf hA
  have hk : (calculate_spread_by_type s'').map Prod.fst =
      (calculate_spread_by_type s).map Prod.fst := by
    refine spread_keys_of_keysOf ?_
    rw [show keysOf (αTopo s'') = keysOf (αTopo u1) from by rw [hα''], hkeys]
  have hsum := improvements_sum_eq hk himp'
  refine ⟨?_, s'', a1, b1, imps, hsw', himp', hok, hpos, by linarith, by linarith⟩
  rw [sumSpread, sumSpread, spread_alpha_congr hα]

/-- **C6 (amended).**  When `find_best_swap` returns without raising: it
returns a pair exactly when some candidate (a device of one host paired
with a device of a distinct host, not skipped as a no-op) evaluates without
error to a strictly positive total improvement with no tier worsening; a
returned pair is itself such a qualifying candidate, its total improvement
is maximal among all qualifying candidates, and ties are resolved by
enumeration order: within the sequence of candidate pairs the search
actually visits (host-pair order, then device order within each host's
snapshot — `searchTrace`), the returned pair is the *first* one attaining
the maximal total improvement, every qualifying candidate visited before
it scoring strictly less (the strict `>` of line 125 never lets a tying
candidate displace the incumbent). -/
theorem c6_find_best_swap_characterization
    {s : List CephHost} {r : Option (CephOsd × CephOsd)} {s' : List CephHost}
    (h : find_best_swap s = .ok (r, s')) :
    ((∃ p, r = some p) ↔ ∃ a b, IsCandidate s a b ∧ Qualifies s a b) ∧
    (∀ a b, r = some (a, b) →
      IsCandidate s a b ∧ Qualifies s a b ∧
      ∀ a' b', IsCandidate s a' b' → Qualifies s a' b' →
        ∀ imps' imps, scoreSwap s a' b' = some imps' →
          scoreSwap s a b = some imps → imps'.sum ≤ imps.sum) ∧
    (∀ p, r = some p →
      ∃ tr pre post, searchTrace s = .ok tr ∧ tr = pre ++ p :: post ∧
        Qualifies s p.1 p.2 ∧
        (∀ q ∈ pre, Qualifies s q.1 q.2 →
          scoreVal s q.1 q.2 < scoreVal s p.1 p.2) ∧
        (∀ q ∈ tr, Qualifies s q.1 q.2 →
          scoreVal s q.1 q.2 ≤ scoreVal s p.1 p.2)) := by
  obtain ⟨_, hsome, hnone⟩ := find_best_swap_core h
  refine ⟨?_, ?_, ?_⟩
  · constructor
    · rintro ⟨⟨a, b⟩, rfl⟩
      obtain ⟨hcand, imps, hscore, hnsk, hpos, hok, _⟩ := hsome a b rfl
      exact ⟨a, b, hcand, hnsk, imps, hscore, hpos, hok⟩
    · rintro ⟨a, b, hcand, hqual⟩
      cases hr : r with
      | some p => exact ⟨p, rfl⟩
      | none => exact absurd hqual (hnone hr a b hcand)
  · intro a b hab
    obtain ⟨hcand, imps, hscore, hnsk, hpos, hok, hmax⟩ := hsome a b hab
    refine ⟨hcand, ⟨hnsk, imps, hscore, hpos, hok⟩, ?_⟩
    intro a' b' hcand' hqual' imps' imps0 hs' hs0
    obtain rfl : imps = imps0 := by rw [hscore] at hs0; simpa using hs0
    exact hmax a' b' hcand' hqual' imps' hs'
  · rw [find_best_swap] at h
    obtain ⟨stf, hst, h'⟩ := bind_ok_elim h
    have hrs : (stf.best, stf.hosts) = (r, s') := by simpa using h'
    have hbest : stf.best = r := congrArg Prod.fst hrs
    obtain ⟨tr, htr, -, hseg⟩ := loopHostA_seg
      (show αTopo ({ best := none, highest := ⊥, hosts := s } :
        SearchState).hosts = αTopo s from rfl) hst
    intro p hp
    rcases hseg with ⟨hb, -, -⟩ |
      ⟨pre, p', post, htreq, hb, hh, hqual, -, hpre, hpost⟩
    · rw [hbest, hp] at hb
      exact Option.noConfusion hb
    · have hpp : p' = p := by
        rw [hbest, hp] at hb
        exact (Option.some.inj hb).symm
      subst hpp
      refine ⟨tr, pre, post, htr, htreq, hqual, ?_, ?_⟩
      · intro q hq hql
        have hx := hpre q hq hql
        rw [hh] at hx
        exact hx
      · intro q hq hql
        rw [htreq] at hq
        rcases List.mem_append.mp hq with hmem | hmem
        · have hx := hpre q hmem hql
          rw [hh] at hx
          exact le_of_lt hx
        · rcases List.mem_cons.mp hmem with rfl | hmem2
          · exact le_refl _
          · have hx := hpost q hmem2 hql
            rw [hh] at hx
            exact hx

/-! ## Device conservation -/

/-- All fields of an OSD except its (mutable) host assignment. -/
def stripHost (o : CephOsd) : Int × Int × String × String :=
  (o.id, o.bluestore_bdev_size, o.device_ids, o.bluestore_bdev_type)

/-- Every OSD in every bucket of every host, in order. -/
def allOsds (s : List CephHost) : List CephOsd :=
  s.flatMap (fun h => h.osd_by_type.flatMap Prod.snd)

/-- The bucket-value multiset sum of one host's buckets. -/
def vSum (B : ABuckets) : Multiset CephOsd := (B.map Prod.snd).sum

/-- All OSDs at the multiset level. -/
def allOsdsA (A : ATopo) : Multiset CephOsd := (A.map (fun p => vSum p.2)).sum

theorem allOsds_alpha (s : List CephHost) :
    (allOsds s : Multiset CephOsd) = allOsdsA (αTopo s) := by
  induction s with
  | nil => rfl
  | cons h rest ih =>
    show ((h.osd_by_type.flatMap Prod.snd ++ allOsds rest : List CephOsd) :
      Multiset CephOsd) = vSum (αBuckets h.osd_by_type) + allOsdsA (αTopo rest)
    rw [← Multiset.coe_add, ih]
    congr 1
    rw [vSum, αBuckets, List.map_map]
    induction h.osd_by_type with
    | nil => rfl
    | cons p r2 ih2 =>
      show ((p.2 ++ r2.flatMap Prod.snd : List CephOsd) : Multiset CephOsd) = _
      rw [← Multiset.coe_add, ih2]
      rfl

theorem vSum_setAL {B : ABuckets} {t : String} {m0 : Multiset CephOsd}
    (hB : lookupAL t B = some m0) (m : Multiset CephOsd) :
    vSum (setAL t m B) + m0 = vSum B + m := by
  induction B with
  | nil => simp [lookupAL] at hB
  | cons p rest ih =>
    obtain ⟨k, v⟩ := p
    by_cases hk : k = t
    · subst hk
      rw [lookupAL, if_pos rfl] at hB
      obtain rfl : v = m0 := by simpa using hB
      rw [setAL, if_pos rfl]
      simp only [vSum, List.map_cons, List.sum_cons]
      abel
    · rw [lookupAL, if_neg hk] at hB
      rw [setAL, if_neg hk]
      simp only [vSum, List.map_cons, List.sum_cons] at ih ⊢
      rw [add_assoc, ih hB, ← add_assoc]

theorem allOsdsA_setAL {A : ATopo} {n : String} {B : ABuckets}
    (hB : lookupAL n A = some B) (B' : ABuckets) :
    allOsdsA (setAL n B' A) + vSum B = allOsdsA A + vSum B' := by
  induction A with
  | nil => simp [lookupAL] at hB
  | cons p rest ih =>
    obtain ⟨k, v⟩ := p
    by_cases hk : k = n
    · subst hk
      rw [lookupAL, if_pos rfl] at hB
      obtain rfl : v = B := by simpa using hB
      rw [setAL, if_pos rfl]
      simp only [allOsdsA, List.map_cons, List.sum_cons]
      abel
    · rw [lookupAL, if_neg hk] at hB
      rw [setAL, if_neg hk]
      simp only [allOsdsA, List.map_cons, List.sum_cons] at ih ⊢
      rw [add_assoc, ih hB, ← add_assoc]

theorem allOsdsA_setBucket {A : ATopo} {n t : String} {m0 : Multiset CephOsd}
    (hg : getBucket A n t = some m0) (m : Multiset CephOsd) :
    allOsdsA (setBucket A n t m) + m0 = allOsdsA A + m := by
  obtain ⟨B, hB, hm⟩ := lookupAL_isSome_of_getBucket hg
  rw [setBucket_some hB]
  have e1 := allOsdsA_setAL hB (setAL t m B)
  have e2 := vSum_setAL hm m
  have : (allOsdsA (setAL n (setAL t m B) A) + m0) + vSum B =
      (allOsdsA A + m) + vSum B := by
    calc (allOsdsA (setAL n (setAL t m B) A) + m0) + vSum B
        = (allOsdsA (setAL n (setAL t m B) A) + vSum B) + m0 := by abel
      _ = (allOsdsA A + vSum (setAL t m B)) + m0 := by rw [e1]
      _ = allOsdsA A + (vSum (setAL t m B) + m0) := by abel
      _ = allOsdsA A + (vSum B + m) := by rw [e2]
      _ = (allOsdsA A + m) + vSum B := by abel
  exact add_right_cancel this

/-- The multiset of devices held by host `n` at the multiset level. -/
def hostMA (A : ATopo) (n : String) : Multiset CephOsd :=
  match lookupAL n A with
  | some B => vSum B
  | none => 0

theorem osdsOfHost_eq_hostMA (s : List CephHost) (n : String) :
    (osdsOfHost s n : Multiset CephOsd) = hostMA (αTopo s) n :=
  osdsOfHost_alpha s n

theorem hostMA_setBucket_self {A : ATopo} {n t : String} {m0 : Multiset CephOsd}
    (hg : getBucket A n t = some m0) (m : Multiset CephOsd) :
    hostMA (setBucket A n t m) n + m0 = hostMA A n + m := by
  obtain ⟨B, hB, hm⟩ := lookupAL_isSome_of_getBucket hg
  rw [hostMA, lookupAL_setBucket_self hB, hostMA, hB]
  exact vSum_setAL hm m

theorem hostMA_setBucket_ne {A : ATopo} {n n' t : String} (hne : n ≠ n')
    (m : Multiset CephOsd) : hostMA (setBucket A n t m) n' = hostMA A n' := by
  rw [hostMA, lookupAL_setBucket_ne hne, hostMA]

theorem singleton_add_cancel {α : Type} [DecidableEq α]
    {x y z : Multiset α} (a : α)
    (h : x + (a ::ₘ z) = y + z) : x + {a} = y := by
  have h2 : (x + {a}) + z = y + z := by
    rw [show (x + {a}) + z = x + ({a} + z) from by abel, Multiset.singleton_add]
    exact h
  exact add_right_cancel h2

theorem add_cancel_cons {α : Type} [DecidableEq α]
    {x y z : Multiset α} {v : α}
    (h : x + z = y + (v ::ₘ z)) : x = y + {v} := by
  have h2 : x + z = (y + {v}) + z := by
    rw [h, show (y + {v}) + z = y + ({v} + z) from by abel,
      Multiset.singleton_add]
  exact add_right_cancel h2

/-- A successful multiset-level swap conserves the device population. -/
theorem swapA_conserves {A D : ATopo} {a b : CephOsd}
    (h : swapA A a b = .ok D) :
    allOsdsA D + ({a} + {b}) =
      allOsdsA A + ({({ a with hostname := b.hostname } : CephOsd)} +
        {({ b with hostname := a.hostname } : CephOsd)}) := by
  obtain ⟨m1, m2, m3, m4, hg1, ha1, hg2, hb2, hg3, hg4, hD⟩ := swapA_ok_decomp h
  set b1 : CephOsd := { b with hostname := a.hostname }
  set a1 : CephOsd := { a with hostname := b.hostname }
  set S1 := setBucket A a.hostname a.bluestore_bdev_type (m1.erase a)
  set S2 := setBucket S1 b.hostname b.bluestore_bdev_type (m2.erase b)
  set S3 := setBucket S2 a.hostname b.bluestore_bdev_type (b1 ::ₘ m3)
  have hs1p : allOsdsA S1 + (a ::ₘ m1.erase a) = allOsdsA A + m1.erase a := by
    rw [Multiset.cons_erase ha1]
    exact allOsdsA_setBucket hg1 (m1.erase a)
  have hs1 := singleton_add_cancel a hs1p
  have hs2p : allOsdsA S2 + (b ::ₘ m2.erase b) = allOsdsA S1 + m2.erase b := by
    rw [Multiset.cons_erase hb2]
    exact allOsdsA_setBucket hg2 (m2.erase b)
  have hs2 := singleton_add_cancel b hs2p
  have hs3 : allOsdsA S3 = allOsdsA S2 + {b1} :=
    add_cancel_cons (allOsdsA_setBucket hg3 (b1 ::ₘ m3))
  have hs4 : allOsdsA D = allOsdsA S3 + {a1} := by
    rw [hD]
    exact add_cancel_cons (allOsdsA_setBucket hg4 (a1 ::ₘ m4))
  rw [hs4, hs3]
  calc allOsdsA S2 + {b1} + {a1} + ({a} + {b})
      = ((allOsdsA S2 + {b}) + {a}) + ({a1} + {b1}) := by abel
    _ = (allOsdsA S1 + {a}) + ({a1} + {b1}) := by rw [hs2]
    _ = allOsdsA A + ({a1} + {b1}) := by rw [hs1]

/-- Host `a.hostname` loses `a` and gains the relabelled `b`. -/
theorem swapA_host_a {A D : ATopo} {a b : CephOsd}
    (hne : a.hostname ≠ b.hostname) (h : swapA A a b = .ok D) :
    hostMA D a.hostname + {a} =
      hostMA A a.hostname + {({ b with hostname := a.hostname } : CephOsd)} := by
  obtain ⟨m1, m2, m3, m4, hg1, ha1, hg2, hb2, hg3, hg4, hD⟩ := swapA_ok_decomp h
  set b1 : CephOsd := { b with hostname := a.hostname }
  set a1 : CephOsd := { a with hostname := b.hostname }
  set S1 := setBucket A a.hostname a.bluestore_bdev_type (m1.erase a)
  set S2 := setBucket S1 b.hostname b.bluestore_bdev_type (m2.erase b)
  set S3 := setBucket S2 a.hostname b.bluestore_bdev_type (b1 ::ₘ m3)
  have q1p : hostMA S1 a.hostname + (a ::ₘ m1.erase a) =
      hostMA A a.hostname + m1.erase a := by
    rw [Multiset.cons_erase ha1]
    exact hostMA_setBucket_self hg1 (m1.erase a)
  have q1 := singleton_add_cancel a q1p
  have q2 : hostMA S2 a.hostname = hostMA S1 a.hostname :=
    hostMA_setBucket_ne (Ne.symm hne) (m2.erase b)
  have q3 : hostMA S3 a.hostname = hostMA S2 a.hostname + {b1} :=
    add_cancel_cons (hostMA_setBucket_self hg3 (b1 ::ₘ m3))
  have q4 : hostMA D a.hostname = hostMA S3 a.hostname := by
    rw [hD]
    exact hostMA_setBucket_ne (Ne.symm hne) (a1 ::ₘ m4)
  rw [q4, q3, q2]
  calc hostMA S1 a.hostname + {b1} + {a}
      = (hostMA S1 a.hostname + {a}) + {b1} := by abel
    _ = hostMA A a.hostname + {b1} := by rw [q1]

/-- Host `b.hostname` loses `b` and gains the relabelled `a`. -/
theorem swapA_host_b {A D : ATopo} {a b : CephOsd}
    (hne : a.hostname ≠ b.hostname) (h : swapA A a b = .ok D) :
    hostMA D b.hostname + {b} =
      hostMA A b.hostname + {({ a with hostname := b.hostname } : CephOsd)} := by
  obtain ⟨m1, m2, m3, m4, hg1, ha1, hg2, hb2, hg3, hg4, hD⟩ := swapA_ok_decomp h
  set b1 : CephOsd := { b with hostname := a.hostname }
  set a1 : CephOsd := { a with hostname := b.hostname }
  set S1 := setBucket A a.hostname a.bluestore_bdev_type (m1.erase a)
  set S2 := setBucket S1 b.hostname b.bluestore_bdev_type (m2.erase b)
  set S3 := setBucket S2 a.hostname b.bluestore_bdev_type (b1 ::ₘ m3)
  have r1 : hostMA S1 b.hostname = hostMA A b.hostname :=
    hostMA_setBucket_ne hne (m1.erase a)
  have r2p : hostMA S2 b.hostname + (b ::ₘ m2.erase b) =
      hostMA S1 b.hostname + m2.erase b := by
    rw [Multiset.cons_erase hb2]
    exact hostMA_setBucket_self hg2 (m2.erase b)
  have r2 := singleton_add_cancel b r2p
  have r3 : hostMA S3 b.hostname = hostMA S2 b.hostname :=
    hostMA_setBucket_ne hne (b1 ::ₘ m3)
  have r4 : hostMA D b.hostname = hostMA S3 b.hostname + {a1} := by
    rw [hD]
    exact add_cancel_cons (hostMA_setBucket_self hg4 (a1 ::ₘ m4))
  rw [r4, r3]
  calc hostMA S2 b.hostname + {a1} + {b}
      = (hostMA S2 b.hostname + {b}) + {a1} := by abel
    _ = hostMA S1 b.hostname + {a1} := by rw [r2]
    _ = hostMA A b.hostname + {a1} := by rw [r1]

/-- Hosts other than the two involved are untouched. -/
theorem swapA_host_other {A D : ATopo} {a b : CephOsd}
    (h : swapA A a b = .ok D) (n : String) (hna : n ≠ a.hostname)
    (hnb : n ≠ b.hostname) : hostMA D n = hostMA A n := by
  obtain ⟨m1, m2, m3, m4, hg1, ha1, hg2, hb2, hg3, hg4, hD⟩ := swapA_ok_decomp h
  rw [hD, hostMA_setBucket_ne (Ne.symm hnb), hostMA_setBucket_ne (Ne.symm hna),
    hostMA_setBucket_ne (Ne.symm hnb), hostMA_setBucket_ne (Ne.symm hna)]

/-- The relabelled `b` lands in host `a.hostname`'s bucket for `b`'s tier. -/
theorem swapA_dest_a {A D : ATopo} {a b : CephOsd}
    (hne : a.hostname ≠ b.hostname) (h : swapA A a b = .ok D) :
    ∃ m, getBucket D a.hostname b.bluestore_bdev_type = some m ∧
      ({ b with hostname := a.hostname } : CephOsd) ∈ m := by
  obtain ⟨m1, m2, m3, m4, hg1, ha1, hg2, hb2, hg3, hg4, hD⟩ := swapA_ok_decomp h
  set b1 : CephOsd := { b with hostname := a.hostname }
  refine ⟨b1 ::ₘ m3, ?_, Multiset.mem_cons_self _ _⟩
  rw [hD, getBucket_setBucket_ne_host (Ne.symm hne)]
  exact getBucket_setBucket_self hg3 (b1 ::ₘ m3)

/-- The relabelled `a` lands in host `b.hostname`'s bucket for `a`'s tier. -/
theorem swapA_dest_b {A D : ATopo} {a b : CephOsd}
    (h : swapA A a b = .ok D) :
    ∃ m, getBucket D b.hostname a.bluestore_bdev_type = some m ∧
      ({ a with hostname := b.hostname } : CephOsd) ∈ m := by
  obtain ⟨m1, m2, m3, m4, hg1, ha1, hg2, hb2, hg3, hg4, hD⟩ := swapA_ok_decomp h
  set a1 : CephOsd := { a with hostname := b.hostname }
  refine ⟨a1 ::ₘ m4, ?_, Multiset.mem_cons_self _ _⟩
  rw [hD]
  exact getBucket_setBucket_self hg4 (a1 ::ₘ m4)

/-- The OSDs of `CA` after swapping `ca` and `cb`: `ca` relabelled to `B`. -/
def ca1 : CephOsd := ⟨11, 3 * 10 ^ 9, "d1", "B", "hdd"⟩

/-- `cb` relabelled to host `A`. -/
def cb1 : CephOsd := ⟨13, 9 * 10 ^ 9, "d3", "A", "hdd"⟩

/-- The host list produced by `swap_osd CA ca cb`. -/
def CASwapped : List CephHost :=
  [⟨"A", [("hdd", [cc, cb1])]⟩, ⟨"B", [("hdd", [ca1])]⟩]

/-- C8: every successful `swap_osd` call on devices of distinct hosts
conserves the device population: the returned records are the two inputs
with exchanged hostnames; the multiset of all OSDs changes only by
replacing `a` and `b` with their relabelled copies (so everything except
the two hostname fields — count, capacity, and all host-independent
fields — is preserved); each affected host's device multiset changes only
by exchanging the two swapped devices; all other hosts are untouched; and
each swapped device lands in the destination host's bucket for its own
tier label. -/
theorem c8_swap_osd_conserves_devices {s t : List CephHost}
    {a b a' b' : CephOsd} (hne : a.hostname ≠ b.hostname)
    (h : swap_osd s a b = .ok (t, a', b')) :
    a' = { a with hostname := b.hostname } ∧
    b' = { b with hostname := a.hostname } ∧
    (allOsds t : Multiset CephOsd) + ({a} + {b}) =
      (allOsds s : Multiset CephOsd) + ({a'} + {b'}) ∧
    (allOsds t).length = (allOsds s).length ∧
    ((allOsds t : Multiset CephOsd).map CephOsd.bluestore_bdev_size).sum =
      ((allOsds s : Multiset CephOsd).map CephOsd.bluestore_bdev_size).sum ∧
    (allOsds t : Multiset CephOsd).map stripHost =
      (allOsds s : Multiset CephOsd).map stripHost ∧
    (osdsOfHost t a.hostname : Multiset CephOsd) + {a} =
      (osdsOfHost s a.hostname : Multiset CephOsd) + {b'} ∧
    (osdsOfHost t b.hostname : Multiset CephOsd) + {b} =
      (osdsOfHost s b.hostname : Multiset CephOsd) + {a'} ∧
    (∀ n, n ≠ a.hostname → n ≠ b.hostname →
      (osdsOfHost t n : Multiset CephOsd) =
        (osdsOfHost s n : Multiset CephOsd)) ∧
    (∃ m, getBucket (αTopo t) a.hostname b.bluestore_bdev_type = some m ∧
      b' ∈ m) ∧
    (∃ m, getBucket (αTopo t) b.hostname a.bluestore_bdev_type = some m ∧
      a' ∈ m) := by
  obtain ⟨B, hB, hrel⟩ := (swap_osd_alpha s a b).ok_left h
  obtain ⟨ht, ha', hb'⟩ := hrel
  dsimp only at ht ha' hb'
  subst ha'
  subst hb'
  have hG : (allOsds t : Multiset CephOsd) + ({a} + {b}) =
      (allOsds s : Multiset CephOsd) +
        ({({ a with hostname := b.hostname } : CephOsd)} +
          {({ b with hostname := a.hostname } : CephOsd)}) := by
    rw [allOsds_alpha, allOsds_alpha, ht]
    exact swapA_conserves hB
  refine ⟨rfl, rfl, hG, ?_, ?_, ?_, ?_, ?_, ?_, ?_, ?_⟩
  · have hc := congrArg Multiset.card hG
    simp only [Multiset.card_add, Multiset.coe_card,
      Multiset.card_singleton] at hc
    omega
  · have hm := congrArg
      (fun M : Multiset CephOsd => (M.map CephOsd.bluestore_bdev_size).sum) hG
    simp only [Multiset.map_add, Multiset.sum_add, Multiset.map_singleton,
      Multiset.sum_singleton] at hm
    rw [show ({ a with hostname := b.hostname } : CephOsd).bluestore_bdev_size
        = a.bluestore_bdev_size from rfl,
      show ({ b with hostname := a.hostname } : CephOsd).bluestore_bdev_size
        = b.bluestore_bdev_size from rfl] at hm
    omega
  · have hstrip := congrArg (Multiset.map stripHost) hG
    simp only [Multiset.map_add, Multiset.map_singleton] at hstrip
    rw [show stripHost { a with hostname := b.hostname } = stripHost a
        from rfl,
      show stripHost { b with hostname := a.hostname } = stripHost b
        from rfl] at hstrip
    exact add_right_cancel hstrip
  · rw [osdsOfHost_eq_hostMA, osdsOfHost_eq_hostMA, ht]
    exact swapA_host_a hne hB
  · rw [osdsOfHost_eq_hostMA, osdsOfHost_eq_hostMA, ht]
    exact swapA_host_b hne hB
  · intro n hna hnb
    rw [osdsOfHost_eq_hostMA, osdsOfHost_eq_hostMA, ht]
    exact swapA_host_other hB n hna hnb
  · rw [ht]
    exact swapA_dest_a hne hB
  · rw [ht]
    exact swapA_dest_b hB

theorem c8_swap_osd_conserves_devices_witness :
    ca.hostname ≠ cb.hostname ∧
    swap_osd CA ca cb = .ok (CASwapped, ca1, cb1) ∧
    (allOsds CASwapped : Multiset CephOsd) + ({ca} + {cb}) =
      (allOsds CA : Multiset CephOsd) + ({ca1} + {cb1}) :=
  ⟨by decide, rfl,
    (@c8_swap_osd_conserves_devices CA CASwapped ca cb ca1 cb1
      (by decide) rfl).2.2.1⟩

/-! ## C1: when the hypothetical swap-and-revert succeeds, and when not -/

theorem getBucket_setBucket_isSome {A : ATopo} {n t n' t' : String}
    (m : Multiset CephOsd) (hg : (getBucket A n t).isSome) :
    (getBucket (setBucket A n t m) n' t').isSome =
      (getBucket A n' t').isSome := by
  by_cases hn : n = n'
  · subst hn
    obtain ⟨m0, hm0⟩ := Option.isSome_iff_exists.mp hg
    obtain ⟨B, hB, _⟩ := lookupAL_isSome_of_getBucket hm0
    by_cases htt : t = t'
    · subst htt
      rw [getBucket_setBucket_self hm0, hm0]
      rfl
    · rw [getBucket_setBucket_ne_t hB htt]
  · rw [getBucket_setBucket_ne_host hn]

/-- `swapA` succeeds as soon as both hosts exist, both source buckets hold
the respective OSDs, and both destination buckets are present. -/
theorem swapA_ok_builder {A : ATopo} {a b : CephOsd} {m1 m2 : Multiset CephOsd}
    (hne : a.hostname ≠ b.hostname)
    (h1 : getBucket A a.hostname a.bluestore_bdev_type = some m1) (ha : a ∈ m1)
    (h2 : getBucket A b.hostname b.bluestore_bdev_type = some m2) (hb : b ∈ m2)
    (hd1 : (getBucket A a.hostname b.bluestore_bdev_type).isSome)
    (hd2 : (getBucket A b.hostname a.bluestore_bdev_type).isSome) :
    ∃ D, swapA A a b = .ok D := by
  obtain ⟨B1, hB1, _⟩ := lookupAL_isSome_of_getBucket h1
  obtain ⟨B2, hB2, _⟩ := lookupAL_isSome_of_getBucket h2
  set S1 := setBucket A a.hostname a.bluestore_bdev_type (m1.erase a) with hS1
  have s1 : removeFromHostA a.hostname a.bluestore_bdev_type a A = .ok S1 :=
    removeFromHostA_ok_iff.mpr ⟨m1, h1, ha, rfl⟩
  have g2 : getBucket S1 b.hostname b.bluestore_bdev_type = some m2 := by
    rw [hS1, getBucket_setBucket_ne_host hne]
    exact h2
  set S2 := setBucket S1 b.hostname b.bluestore_bdev_type (m2.erase b) with hS2
  have s2 : removeFromHostA b.hostname b.bluestore_bdev_type b S1 = .ok S2 :=
    removeFromHostA_ok_iff.mpr ⟨m2, g2, hb, rfl⟩
  have hd1' : (getBucket S2 a.hostname b.bluestore_bdev_type).isSome := by
    rw [hS2, getBucket_setBucket_isSome _ (by rw [g2]; rfl), hS1,
      getBucket_setBucket_isSome _ (by rw [h1]; rfl)]
    exact hd1
  obtain ⟨m3, hm3⟩ := Option.isSome_iff_exists.mp hd1'
  set S3 := setBucket S2 a.hostname b.bluestore_bdev_type
    ({ b with hostname := a.hostname } ::ₘ m3) with hS3
  have s3 : appendToHostA a.hostname b.bluestore_bdev_type
      { b with hostname := a.hostname } S2 = .ok S3 :=
    appendToHostA_ok_iff.mpr ⟨m3, hm3, rfl⟩
  have hd2' : (getBucket S3 b.hostname a.bluestore_bdev_type).isSome := by
    rw [hS3, getBucket_setBucket_isSome _ (by rw [hm3]; rfl), hS2,
      getBucket_setBucket_isSome _ (by rw [g2]; rfl), hS1,
      getBucket_setBucket_isSome _ (by rw [h1]; rfl)]
    exact hd2
  obtain ⟨m4, hm4⟩ := Option.isSome_iff_exists.mp hd2'
  have s4 : appendToHostA b.hostname a.bluestore_bdev_type
      { a with hostname := b.hostname } S3 =
      .ok (setBucket S3 b.hostname a.bluestore_bdev_type
        ({ a with hostname := b.hostname } ::ₘ m4)) :=
    appendToHostA_ok_iff.mpr ⟨m4, hm4, rfl⟩
  refine ⟨setBucket S3 b.hostname a.bluestore_bdev_type
    ({ a with hostname := b.hostname } ::ₘ m4), ?_⟩
  rw [swapA]
  show (match lookupAL a.hostname A with
    | none => Except.error "StopIteration"
    | some _ =>
      match lookupAL b.hostname A with
      | none => Except.error "StopIteration"
      | some _ => _) = _
  rw [hB1, hB2]
  show (removeFromHostA a.hostname a.bluestore_bdev_type a A).bind _ = _
  rw [s1]
  show (removeFromHostA b.hostname b.bluestore_bdev_type b S1).bind _ = _
  rw [s2]
  show (appendToHostA a.hostname b.bluestore_bdev_type
    { b with hostname := a.hostname } S2).bind _ = _
  rw [s3]
  show (appendToHostA b.hostname a.bluestore_bdev_type
    { a with hostname := b.hostname } S3).bind _ = _
  rw [s4]
  rfl

/-- C1 (amended): the hypothetical swap and its revert are error-free
whenever, in addition to the claim's assumptions (distinct hosts, pair not
skipped), both destination tier buckets exist on the receiving hosts; the
claim as stated is refuted by its counterexample, where a cross-tier pair
makes `host_a.osd_by_type[osd_b.bluestore_bdev_type]` raise `KeyError`. -/
theorem c1_swap_eval_revert_error_free {s : List CephHost} {a b : CephOsd}
    {m1 m2 : Multiset CephOsd}
    (hne : a.hostname ≠ b.hostname)
    (h1 : getBucket (αTopo s) a.hostname a.bluestore_bdev_type = some m1)
    (ha : a ∈ m1)
    (h2 : getBucket (αTopo s) b.hostname b.bluestore_bdev_type = some m2)
    (hb : b ∈ m2)
    (hd1 : (getBucket (αTopo s) a.hostname b.bluestore_bdev_type).isSome)
    (hd2 : (getBucket (αTopo s) b.hostname a.bluestore_bdev_type).isSome) :
    ∃ t a' b' t', swap_osd s a b = .ok (t, a', b') ∧
      swap_osd t a' b' = .ok (t', a, b) ∧ αTopo t' = αTopo s := by
  obtain ⟨D, hD⟩ := swapA_ok_builder hne h1 ha h2 hb hd1 hd2
  obtain ⟨r, hr, hrel⟩ := (swap_osd_alpha s a b).ok_right hD
  obtain ⟨t, a', b'⟩ := r
  obtain ⟨ht, ha', hb'⟩ := hrel
  dsimp only at ht ha' hb'
  subst ha'
  subst hb'
  obtain ⟨t', hrev, ht'⟩ := swap_osd_revert hr
  exact ⟨t, _, _, t', hr, hrev, ht'⟩

theorem c1_swap_eval_revert_error_free_witness :
    ca.hostname ≠ cb.hostname ∧
    (∃ t a' b' t', swap_osd CA ca cb = .ok (t, a', b') ∧
      swap_osd t a' b' = .ok (t', ca, cb) ∧ αTopo t' = αTopo CA) :=
  ⟨by decide,
    c1_swap_eval_revert_error_free (by decide) rfl (by decide) rfl
      (by decide) rfl rfl⟩

/-- C1 (counterexample): on the mixed-tier topology `MT` the pair
`(mtA, mtB)` lives on distinct hosts and is not skipped, yet the
hypothetical swap raises `KeyError` at the destination-bucket lookup, and
the whole Swap Search call errors with it. -/
theorem c1_mixed_tier_counterexample :
    mtA.hostname ≠ mtB.hostname ∧ ¬ Skipped mtA mtB ∧
    swap_osd MT mtA mtB = .error "KeyError" ∧
    Except.map (fun r => r.1) (find_best_swap MT) = .error "KeyError" :=
  ⟨by decide, by decide, rfl, rfl⟩

/-! ## C3: what swap-then-revert actually restores -/

/-- The host list after `swap_osd CA ca cb` followed by the reverting
second call: host `A`'s hdd bucket comes back as `[cc, ca]`, not the
original `[ca, cc]`. -/
def CADouble : List CephHost :=
  [⟨"A", [("hdd", [cc, ca])]⟩, ⟨"B", [("hdd", [cb])]⟩]

/-- C3 (counterexample): applying `swap_osd` twice on `CA` (exactly the
apply-then-revert sequence of Swap Search, via `doubleSwap`) returns the
two devices to their original hosts but reorders host `A`'s hdd bucket
from `[ca, cc]` to `[cc, ca]` — the result is not equal in every field to
the pre-swap state, because `list.remove` deletes in place while `append`
re-inserts at the end. -/
theorem c3_revert_reorders_counterexample :
    doubleSwap CA ca cb = .ok (CADouble, ca, cb) ∧ CADouble ≠ CA :=
  ⟨rfl, by decide⟩

/-- C3 (amended): whenever the hypothetical swap succeeds, the reverting
second `swap_osd` call also succeeds, restores both OSD records exactly
(including their hostname fields), and restores the topology up to
bucket-internal device order: the multiset view `αTopo` — host sequence,
bucket-key sequence per host, and device multiset per bucket — is
restored exactly, so each bucket holds a permutation of its original
device list, but not necessarily in the original order. -/
theorem c3_double_swap_restores_multiset_view {s t : List CephHost}
    {a b a' b' : CephOsd} (h : swap_osd s a b = .ok (t, a', b')) :
    ∃ t', doubleSwap s a b = .ok (t', a, b) ∧ αTopo t' = αTopo s := by
  obtain ⟨t', hrev, ht'⟩ := swap_osd_revert h
  refine ⟨t', ?_, ht'⟩
  rw [doubleSwap]
  show (swap_osd s a b).bind _ = _
  rw [h]
  show swap_osd t a' b' = _
  exact hrev

theorem c3_double_swap_restores_multiset_view_witness :
    ∃ t', doubleSwap CA ca cb = .ok (t', ca, cb) ∧ αTopo t' = αTopo CA :=
  c3_double_swap_restores_multiset_view
    (rfl : swap_osd CA ca cb = .ok (CASwapped, ca1, cb1))

/-! ## C4: which hosts contribute to a tier's dispersion sample -/

theorem lookupAL_appendAL_self_some {β : Type} {k : String} {x : β}
    {l : List (String × List β)} {v : List β} (h : lookupAL k l = some v) :
    lookupAL k (appendAL k x l) = some (v ++ [x]) := by
  induction l with
  | nil => exact absurd h (by simp [lookupAL])
  | cons p rest ih =>
    obtain ⟨k', w⟩ := p
    by_cases hk : k' = k
    · subst hk
      simp only [lookupAL, if_pos rfl] at h
      obtain rfl : w = v := by simpa using h
      simp [appendAL, lookupAL]
    · simp only [lookupAL, if_neg hk] at h
      simp [appendAL, lookupAL, hk, ih h]

theorem lookupAL_appendAL_self_none {β : Type} {k : String} (x : β)
    {l : List (String × List β)} (h : lookupAL k l = none) :
    lookupAL k (appendAL k x l) = some [x] := by
  induction l with
  | nil => simp [appendAL, lookupAL]
  | cons p rest ih =>
    obtain ⟨k', w⟩ := p
    by_cases hk : k' = k
    · subst hk
      simp [lookupAL] at h
    · simp only [lookupAL, if_neg hk] at h
      simp [appendAL, lookupAL, hk, ih h]

theorem lookupAL_appendAL_ne {β : Type} {k t : String} (hk : k ≠ t) (x : β)
    (l : List (String × List β)) :
    lookupAL t (appendAL k x l) = lookupAL t l := by
  induction l with
  | nil => simp [appendAL, lookupAL, hk]
  | cons p rest ih =>
    obtain ⟨k', w⟩ := p
    rw [appendAL]
    by_cases hkk : k' = k
    · subst hkk
      simp [lookupAL, hk]
    · rw [if_neg hkk]
      by_cases h2 : k' = t
      · simp [lookupAL, h2]
      · simp [lookupAL, h2, ih]

theorem lookupAL_foldl_appendAL_some {β : Type} {t : String}
    {es : List (String × β)} {acc : List (String × List β)} {v : List β}
    (h : lookupAL t acc = some v) :
    lookupAL t (es.foldl (fun acc p => appendAL p.1 p.2 acc) acc) =
      some (v ++ (es.filter (fun p => p.1 = t)).map Prod.snd) := by
  induction es generalizing acc v with
  | nil => simpa using h
  | cons p rest ih =>
    obtain ⟨k, x⟩ := p
    rw [List.foldl_cons]
    by_cases hk : k = t
    · subst hk
      rw [ih (lookupAL_appendAL_self_some h)]
      simp [List.append_assoc]
    · rw [ih (by rw [lookupAL_appendAL_ne hk]; exact h)]
      simp [hk]

theorem lookupAL_foldl_appendAL_none {β : Type} {t : String}
    {es : List (String × β)} {acc : List (String × List β)}
    (h : lookupAL t acc = none) :
    lookupAL t (es.foldl (fun acc p => appendAL p.1 p.2 acc) acc) =
      (if es.filter (fun p => p.1 = t) = [] then none
       else some ((es.filter (fun p => p.1 = t)).map Prod.snd)) := by
  induction es generalizing acc with
  | nil => simpa using h
  | cons p rest ih =>
    obtain ⟨k, x⟩ := p
    rw [List.foldl_cons]
    by_cases hk : k = t
    · subst hk
      rw [lookupAL_foldl_appendAL_some (lookupAL_appendAL_self_none x h)]
      simp
    · rw [ih (by rw [lookupAL_appendAL_ne hk]; exact h)]
      simp [hk]

/-- The per-tier dispersion sample, read off the code: one entry per
occurrence of tier key `t` in a host's bucket dict (empty buckets
included), in host-then-bucket order, each the floored GB total. -/
def tierSample (hosts : List CephHost) (t : String) : List Int :=
  ((hosts.flatMap hostEntries).filter (fun p => p.1 = t)).map Prod.snd

theorem hostEntries_filter_map (h : CephHost) (t : String) :
    ((hostEntries h).filter (fun p => p.1 = t)).map Prod.snd =
      (h.osd_by_type.filter (fun p => p.1 = t)).map
        (fun p => bucketTotal p.2) := by
  rw [hostEntries]
  induction h.osd_by_type with
  | nil => rfl
  | cons p rest ih =>
    obtain ⟨k, v⟩ := p
    by_cases hk : k = t <;> simp [hk, ih]

/-- C4 (amended): `calculate_spread_by_type` takes each tier's standard
deviation over the sample `tierSample`, which has one entry for every
host *bucket keyed* by that tier — so a host whose bucket for the tier
was emptied by an earlier swap still contributes a `0` entry; only hosts
with no bucket entry at all for the tier are excluded. -/
theorem c4_sample_is_per_bucket_key (hosts : List CephHost) (t : String) :
    calculate_spread_by_type hosts =
      (total_sizes_by_type hosts).map (fun p => (p.1, npStd p.2)) ∧
    lookupAL t (total_sizes_by_type hosts) =
      (if tierSample hosts t = [] then none
       else some (tierSample hosts t)) ∧
    tierSample hosts t =
      (hosts.flatMap (fun h => h.osd_by_type.filter (fun p => p.1 = t))).map
        (fun p => bucketTotal p.2) := by
  refine ⟨rfl, ?_, ?_⟩
  · rw [total_sizes_by_type, lookupAL_foldl_appendAL_none (by rfl)]
    rw [tierSample]
    by_cases he : (hosts.flatMap hostEntries).filter (fun p => p.1 = t) = [] <;>
      simp [he]
  · rw [tierSample]
    induction hosts with
    | nil => rfl
    | cons h rest ih =>
      rw [List.flatMap_cons, List.flatMap_cons, List.filter_append,
        List.map_append, List.map_append, ih, hostEntries_filter_map]

/-- 10 GB hdd device on host `A`. -/
def fx : CephOsd := ⟨21, 10 * 10 ^ 9, "e1", "A", "hdd"⟩

/-- 5 GB ssd device on host `A`. -/
def fw : CephOsd := ⟨22, 5 * 10 ^ 9, "e2", "A", "ssd"⟩

/-- 7 GB hdd device on host `B`. -/
def fu : CephOsd := ⟨23, 7 * 10 ^ 9, "e3", "B", "hdd"⟩

/-- 3 GB ssd device on host `B`. -/
def fz : CephOsd := ⟨24, 3 * 10 ^ 9, "e4", "B", "ssd"⟩

/-- The grouped topology of the four devices above. -/
def T4pre : List CephHost :=
  [⟨"A", [("hdd", [fx]), ("ssd", [fw])]⟩,
   ⟨"B", [("hdd", [fu]), ("ssd", [fz])]⟩]

/-- `fx` after moving to host `B`. -/
def fx1 : CephOsd := ⟨21, 10 * 10 ^ 9, "e1", "B", "hdd"⟩

/-- `fz` after moving to host `A`. -/
def fz1 : CephOsd := ⟨24, 3 * 10 ^ 9, "e4", "A", "ssd"⟩

/-- The topology after swapping `fx` with `fz`: host `A` keeps an *empty*
hdd bucket, host `B` an empty ssd bucket. -/
def T4 : List CephHost :=
  [⟨"A", [("hdd", []), ("ssd", [fw, fz1])]⟩,
   ⟨"B", [("hdd", [fu, fx1]), ("ssd", [])]⟩]

/-- C4 (counterexample): after an applied swap empties host `A`'s hdd
bucket, `calculate_spread_by_type`'s hdd sample is `[0, 17]` — host `A`
contributes a zero entry although it holds no hdd device, contradicting
the claim that such hosts never contribute to the sample. -/
theorem c4_empty_bucket_contributes_zero_counterexample :
    group_osds_by_host_and_type [fx, fw, fu, fz] = T4pre ∧
    swap_osd T4pre fx fz = .ok (T4, fx1, fz1) ∧
    findHost T4 "A" = some ⟨"A", [("hdd", []), ("ssd", [fw, fz1])]⟩ ∧
    lookupAL "hdd" (total_sizes_by_type T4) = some [0, 17] :=
  ⟨rfl, rfl, rfl, rfl⟩

/-! ## C9: which fetch failures are recovered -/

/-- C9 (counterexample): a transport-level failure of the inventory fetch
(`OSError` and kin, e.g. the `ceph` binary missing) is not caught by the
`except subprocess.CalledProcessError` handler — the program aborts with
the exception instead of proceeding with an empty device list. -/
theorem c9_transport_error_uncaught_counterexample :
    get_ceph_osd_metadata .transportError = .error "OSError" := rfl

/-- C9 (amended): only a non-zero exit status (`CalledProcessError`, due
to `check=True`) is recovered: the fetch then returns the empty device
list and the rest of the pipeline runs to completion on it, grouping it
into an empty topology on which Swap Search finds nothing. -/
theorem c9_called_process_error_recovered :
    get_ceph_osd_metadata .calledProcessError = .ok [] ∧
    group_osds_by_host_and_type [] = [] ∧
    find_best_swap [] = .ok (none, []) :=
  ⟨rfl, rfl, rfl⟩

/-! ## C10: flooring to GB and what it hides -/

theorem npStd_pair (x y : Int) : npStd [x, y] = |(x : ℝ) - (y : ℝ)| / 2 := by
  show Real.sqrt ((([x, y].map (fun z : Int => ((z : ℝ) -
      (([x, y].map (fun z : Int => (z : ℝ))).sum) /
        (([x, y] : List Int).length : ℝ)) ^ 2)).sum) /
      (([x, y] : List Int).length : ℝ)) = |(x : ℝ) - (y : ℝ)| / 2
  have hn : ((([x, y] : List Int).length) : ℝ) = 2 := by norm_num
  rw [hn]
  simp only [List.map_cons, List.map_nil, List.sum_cons, List.sum_nil]
  have key : (((x : ℝ) - ((x : ℝ) + ((y : ℝ) + 0)) / 2) ^ 2 +
      ((((y : ℝ) - ((x : ℝ) + ((y : ℝ) + 0)) / 2)) ^ 2 + 0)) / 2 =
      (((x : ℝ) - (y : ℝ)) / 2) ^ 2 := by ring
  rw [key, Real.sqrt_sq_eq_abs, abs_div]
  norm_num

/-- A 1.9 GB hdd device on host `A`. -/
def g19 : CephOsd := ⟨31, 19 * 10 ^ 8, "g1", "A", "hdd"⟩

/-- A 2.1 GB hdd device on host `A`. -/
def g21 : CephOsd := ⟨32, 21 * 10 ^ 8, "g2", "A", "hdd"⟩

/-- A 0.1 GB hdd device on host `B`. -/
def g01 : CephOsd := ⟨33, 1 * 10 ^ 8, "g3", "B", "hdd"⟩

/-- A 1.5 GB hdd device on host `A`. -/
def g15 : CephOsd := ⟨34, 15 * 10 ^ 8, "g4", "A", "hdd"⟩

/-- Host `A` with the 1.9 GB device, host `B` with the 0.1 GB device. -/
def P10 : List CephHost := [⟨"A", [("hdd", [g19])]⟩, ⟨"B", [("hdd", [g01])]⟩]

/-- As `P10` but `A`'s device is 2.1 GB — only 0.2 GB more. -/
def Q10 : List CephHost := [⟨"A", [("hdd", [g21])]⟩, ⟨"B", [("hdd", [g01])]⟩]

/-- C10 (counterexample): a sub-`10^9`-byte difference in a host's tier
total is visible to the Balance Metric when it crosses a whole-GB
boundary: `P10` and `Q10` differ by `2·10^8` bytes on host `A` yet floor
to totals 1 vs 2, giving different dispersion maps. -/
theorem c10_sub_gb_difference_visible_counterexample :
    (21 * 10 ^ 8 - 19 * 10 ^ 8 : Int) < 10 ^ 9 ∧
    calculate_spread_by_type P10 ≠ calculate_spread_by_type Q10 := by
  refine ⟨by norm_num, ?_⟩
  intro h
  have h1 : calculate_spread_by_type P10 = [("hdd", npStd [1, 0])] := rfl
  have h2 : calculate_spread_by_type Q10 = [("hdd", npStd [2, 0])] := rfl
  rw [h1, h2] at h
  simp only [List.cons.injEq, Prod.mk.injEq, and_true, true_and] at h
  rw [npStd_pair, npStd_pair] at h
  norm_num at h

/-- C10 (amended): the dispersion map is a function of the floored
per-host per-tier totals dict: topologies with equal `total_sizes_by_type`
(equal whole-GB totals) get identical dispersion maps, so capacity
differences that do not change any floored total are invisible — but
sub-GB differences that cross a GB boundary are visible (see the
counterexample). -/
theorem c10_spread_function_of_floored_totals (s u : List CephHost)
    (h : total_sizes_by_type s = total_sizes_by_type u) :
    calculate_spread_by_type s = calculate_spread_by_type u := by
  rw [calculate_spread_by_type, calculate_spread_by_type, h]

/-- Host `A` with only the 1.9 GB device. -/
def W10a : List CephHost := [⟨"A", [("hdd", [g19])]⟩]

/-- Host `A` with only the 1.5 GB device: different bytes, same floored
totals as `W10a`. -/
def W10b : List CephHost := [⟨"A", [("hdd", [g15])]⟩]

theorem c10_spread_function_of_floored_totals_witness :
    W10a ≠ W10b ∧
    calculate_spread_by_type W10a = calculate_spread_by_type W10b :=
  ⟨by decide, c10_spread_function_of_floored_totals W10a W10b rfl⟩

/-! ## C2: Scenario A, evaluated -/

/-- A rejected candidate leaves only the revert's side effect on the
state: the skip test fails, the hypothetical swap succeeds, the scored
total improvement is not positive, and the swap is undone. -/
theorem evalCandidate_reject {orig : List (String × ℝ)} {a b : CephOsd}
    {st : SearchState} {h1 h2 : List CephHost} {a1 b1 a2 b2 : CephOsd}
    {imps : List ℝ}
    (hns : ¬ Skipped a b)
    (hs1 : swap_osd st.hosts a b = .ok (h1, a1, b1))
    (hi : improvements orig (calculate_spread_by_type h1) = .ok imps)
    (hs2 : swap_osd h1 a1 b1 = .ok (h2, a2, b2))
    (hneg : ¬ (0 < imps.sum ∧ ((imps.sum : ℝ) : EReal) > st.highest ∧
      ∀ imp ∈ imps, 0 ≤ imp)) :
    evalCandidate orig a b st = .ok { st with hosts := h2 } := by
  rw [evalCandidate, if_neg hns]
  show (swap_osd st.hosts a b).bind _ = _
  rw [hs1]
  show (improvements orig (calculate_spread_by_type h1)).bind _ = _
  rw [hi]
  show (swap_osd h1 a1 b1).bind _ = _
  rw [hs2]
  show (if 0 < imps.sum ∧ ((imps.sum : ℝ) : EReal) > st.highest ∧
      ∀ imp ∈ imps, 0 ≤ imp then _ else _) = _
  rw [if_neg hneg]

/-- Scenario A: the 10-unit hdd device on host `X`. -/
def x10 : CephOsd := ⟨41, 10 * 10 ^ 9, "h1", "X", "hdd"⟩

/-- Scenario A: the 2-unit hdd device on host `Y`. -/
def y2 : CephOsd := ⟨42, 2 * 10 ^ 9, "h2", "Y", "hdd"⟩

/-- Scenario A: the 6-unit hdd device on host `Y`. -/
def y6 : CephOsd := ⟨43, 6 * 10 ^ 9, "h3", "Y", "hdd"⟩

/-- `x10` relabelled to host `Y`. -/
def x10m : CephOsd := ⟨41, 10 * 10 ^ 9, "h1", "Y", "hdd"⟩

/-- `y2` relabelled to host `X`. -/
def y2m : CephOsd := ⟨42, 2 * 10 ^ 9, "h2", "X", "hdd"⟩

/-- `y6` relabelled to host `X`. -/
def y6m : CephOsd := ⟨43, 6 * 10 ^ 9, "h3", "X", "hdd"⟩

/-- The Scenario A topology: `X` holds 10, `Y` holds 2 and 6. -/
def SA : List CephHost :=
  [⟨"X", [("hdd", [x10])]⟩, ⟨"Y", [("hdd", [y2, y6])]⟩]

/-- `SA` with `Y`'s bucket reordered, as left behind by a revert. -/
def SA' : List CephHost :=
  [⟨"X", [("hdd", [x10])]⟩, ⟨"Y", [("hdd", [y6, y2])]⟩]

/-- The hypothetical state after swapping `x10` with `y2`. -/
def H1 : List CephHost :=
  [⟨"X", [("hdd", [y2m])]⟩, ⟨"Y", [("hdd", [y6, x10m])]⟩]

/-- The hypothetical state after swapping `x10` with `y6`. -/
def H2 : List CephHost :=
  [⟨"X", [("hdd", [y6m])]⟩, ⟨"Y", [("hdd", [y2, x10m])]⟩]

theorem npStd_10_8 : npStd [10, 8] = 1 := by
  rw [npStd_pair, show ((10 : Int) : ℝ) - ((8 : Int) : ℝ) = 2 from by norm_num,
    abs_of_nonneg (by norm_num : (0 : ℝ) ≤ 2)]
  norm_num

theorem npStd_2_16 : npStd [2, 16] = 7 := by
  rw [npStd_pair, show ((2 : Int) : ℝ) - ((16 : Int) : ℝ) = -14 from by norm_num,
    abs_of_nonpos (by norm_num : (-14 : ℝ) ≤ 0)]
  norm_num

theorem npStd_6_12 : npStd [6, 12] = 3 := by
  rw [npStd_pair, show ((6 : Int) : ℝ) - ((12 : Int) : ℝ) = -6 from by norm_num,
    abs_of_nonpos (by norm_num : (-6 : ℝ) ≤ 0)]
  norm_num

/-- Swap Search on Scenario A: every candidate worsens the hdd spread, so
the search returns no pair and restores the host list. -/
theorem find_best_swap_SA : find_best_swap SA = .ok (none, SA) := by
  have rejA : ¬ 0 < ([npStd [10, 8] - npStd [2, 16]] : List ℝ).sum := by
    rw [npStd_10_8, npStd_2_16]
    norm_num [List.sum_cons, List.sum_nil]
  have rejB : ¬ 0 < ([npStd [10, 8] - npStd [6, 12]] : List ℝ).sum := by
    rw [npStd_10_8, npStd_6_12]
    norm_num [List.sum_cons, List.sum_nil]
  have i1 : improvements (calculate_spread_by_type SA)
      (calculate_spread_by_type H1) = .ok [npStd [10, 8] - npStd [2, 16]] := rfl
  have i2 : improvements (calculate_spread_by_type SA)
      (calculate_spread_by_type H2) = .ok [npStd [10, 8] - npStd [6, 12]] := rfl
  have s1 : swap_osd SA x10 y2 = .ok (H1, x10m, y2m) := rfl
  have r1 : swap_osd H1 x10m y2m = .ok (SA', x10, y2) := rfl
  have s2 : swap_osd SA' x10 y6 = .ok (H2, x10m, y6m) := rfl
  have r2 : swap_osd H2 x10m y6m = .ok (SA, x10, y6) := rfl
  have s3 : swap_osd SA y2 x10 = .ok (H1, y2m, x10m) := rfl
  have r3 : swap_osd H1 y2m x10m = .ok (SA', y2, x10) := rfl
  have s4 : swap_osd SA' y6 x10 = .ok (H2, y6m, x10m) := rfl
  have r4 : swap_osd H2 y6m x10m = .ok (SA, y6, x10) := rfl
  have ec1 : evalCandidate (calculate_spread_by_type SA) x10 y2
      ⟨none, ⊥, SA⟩ = .ok ⟨none, ⊥, SA'⟩ :=
    evalCandidate_reject (by decide) s1 i1 r1 (fun hc => rejA hc.1)
  have ec2 : evalCandidate (calculate_spread_by_type SA) x10 y6
      ⟨none, ⊥, SA'⟩ = .ok ⟨none, ⊥, SA⟩ :=
    evalCandidate_reject (by decide) s2 i2 r2 (fun hc => rejB hc.1)
  have ec3 : evalCandidate (calculate_spread_by_type SA) y2 x10
      ⟨none, ⊥, SA⟩ = .ok ⟨none, ⊥, SA'⟩ :=
    evalCandidate_reject (by decide) s3 i1 r3 (fun hc => rejA hc.1)
  have ec4 : evalCandidate (calculate_spread_by_type SA) y6 x10
      ⟨none, ⊥, SA'⟩ = .ok ⟨none, ⊥, SA⟩ :=
    evalCandidate_reject (by decide) s4 i2 r4 (fun hc => rejB hc.1)
  have lb1 : loopOsdB (calculate_spread_by_type SA) x10 [y2, y6]
      ⟨none, ⊥, SA⟩ = .ok ⟨none, ⊥, SA⟩ := by
    show (evalCandidate _ x10 y2 _).bind _ = _
    rw [ec1]
    show (evalCandidate _ x10 y6 _).bind _ = _
    rw [ec2]
    rfl
  have la1 : loopOsdA (calculate_spread_by_type SA) [x10] [y2, y6]
      ⟨none, ⊥, SA⟩ = .ok ⟨none, ⊥, SA⟩ := by
    show (loopOsdB _ x10 [y2, y6] _).bind _ = _
    rw [lb1]
    rfl
  have lb3 : loopOsdB (calculate_spread_by_type SA) y2 [x10]
      ⟨none, ⊥, SA⟩ = .ok ⟨none, ⊥, SA'⟩ := by
    show (evalCandidate _ y2 x10 _).bind _ = _
    rw [ec3]
    rfl
  have lb4 : loopOsdB (calculate_spread_by_type SA) y6 [x10]
      ⟨none, ⊥, SA'⟩ = .ok ⟨none, ⊥, SA⟩ := by
    show (evalCandidate _ y6 x10 _).bind _ = _
    rw [ec4]
    rfl
  have la2 : loopOsdA (calculate_spread_by_type SA) [y2, y6] [x10]
      ⟨none, ⊥, SA⟩ = .ok ⟨none, ⊥, SA⟩ := by
    show (loopOsdB _ y2 [x10] _).bind _ = _
    rw [lb3]
    show (loopOsdB _ y6 [x10] _).bind _ = _
    rw [lb4]
    rfl
  have hb1 : loopHostB (calculate_spread_by_type SA) "X" ["X", "Y"]
      ⟨none, ⊥, SA⟩ = .ok ⟨none, ⊥, SA⟩ := by
    show (loopOsdA (calculate_spread_by_type SA) [x10] [y2, y6]
      ⟨none, ⊥, SA⟩).bind _ = _
    rw [la1]
    rfl
  have hb2 : loopHostB (calculate_spread_by_type SA) "Y" ["X", "Y"]
      ⟨none, ⊥, SA⟩ = .ok ⟨none, ⊥, SA⟩ := by
    show (loopOsdA (calculate_spread_by_type SA) [y2, y6] [x10]
      ⟨none, ⊥, SA⟩).bind _ = _
    rw [la2]
    rfl
  have ha1 : loopHostA (calculate_spread_by_type SA) ["X", "Y"] ["X", "Y"]
      ⟨none, ⊥, SA⟩ = .ok ⟨none, ⊥, SA⟩ := by
    show (loopHostB _ "X" ["X", "Y"] _).bind _ = _
    rw [hb1]
    show (loopHostB _ "Y" ["X", "Y"] _).bind _ = _
    rw [hb2]
    rfl
  show (loopHostA (calculate_spread_by_type SA) ["X", "Y"] ["X", "Y"]
    ⟨none, ⊥, SA⟩).bind _ = _
  rw [ha1]
  rfl

/-- C2 (counterexample): on the exact Scenario A input, Swap Search
proposes nothing at all (it returns `none`), because the swap the spec
expects — the 10-unit with the 6-unit device — would *raise* the hdd
dispersion from 1 to 3 (totals 10/8 become 6/12), violating the
acceptance rule the same spec paragraph stipulates. -/
theorem c2_scenario_a_counterexample :
    Except.map Prod.fst (find_best_swap SA) = .ok none ∧
    swap_osd SA x10 y6 = .ok (H2, x10m, y6m) ∧
    calculate_spread_by_type SA = [("hdd", npStd [10, 8])] ∧
    calculate_spread_by_type H2 = [("hdd", npStd [6, 12])] ∧
    npStd [10, 8] = 1 ∧ npStd [6, 12] = 3 := by
  refine ⟨?_, rfl, rfl, rfl, npStd_10_8, npStd_6_12⟩
  rw [find_best_swap_SA]
  rfl

/-- C2 (amended): on the Scenario A input, `find_best_swap` returns no
pair and leaves the topology equal to the input: *no* candidate swap can
satisfy the acceptance rule, since every one of the four candidates
increases the hdd dispersion (to 7 for the 10-with-2 swap, to 3 for the
10-with-6 swap). -/
theorem c2_scenario_a_finds_nothing :
    find_best_swap SA = .ok (none, SA) := find_best_swap_SA

/-! ## A run of Swap Search that accepts a pair -/

/-- An accepted candidate: as `evalCandidate_reject`, but the acceptance
condition holds, so the pair is recorded with its total improvement. -/
theorem evalCandidate_accept {orig : List (String × ℝ)} {a b : CephOsd}
    {st : SearchState} {h1 h2 : List CephHost} {a1 b1 a2 b2 : CephOsd}
    {imps : List ℝ}
    (hns : ¬ Skipped a b)
    (hs1 : swap_osd st.hosts a b = .ok (h1, a1, b1))
    (hi : improvements orig (calculate_spread_by_type h1) = .ok imps)
    (hs2 : swap_osd h1 a1 b1 = .ok (h2, a2, b2))
    (hacc : 0 < imps.sum ∧ ((imps.sum : ℝ) : EReal) > st.highest ∧
      ∀ imp ∈ imps, 0 ≤ imp) :
    evalCandidate orig a b st =
      .ok { best := some (a, b), highest := ((imps.sum : ℝ) : EReal),
            hosts := h2 } := by
  rw [evalCandidate, if_neg hns]
  show (swap_osd st.hosts a b).bind _ = _
  rw [hs1]
  show (improvements orig (calculate_spread_by_type h1)).bind _ = _
  rw [hi]
  show (swap_osd h1 a1 b1).bind _ = _
  rw [hs2]
  show (if 0 < imps.sum ∧ ((imps.sum : ℝ) : EReal) > st.highest ∧
      ∀ imp ∈ imps, 0 ≤ imp then _ else _) = _
  rw [if_pos hacc]

/-- A 2 GB hdd device on host `A`. -/
def w1 : CephOsd := ⟨51, 2 * 10 ^ 9, "k1", "A", "hdd"⟩

/-- A 4 GB hdd device on host `B`. -/
def w2 : CephOsd := ⟨52, 4 * 10 ^ 9, "k2", "B", "hdd"⟩

/-- A 10 GB hdd device on host `B`. -/
def w3 : CephOsd := ⟨53, 10 * 10 ^ 9, "k3", "B", "hdd"⟩

/-- `w1` relabelled to host `B`. -/
def w1m : CephOsd := ⟨51, 2 * 10 ^ 9, "k1", "B", "hdd"⟩

/-- `w2` relabelled to host `A`. -/
def w2m : CephOsd := ⟨52, 4 * 10 ^ 9, "k2", "A", "hdd"⟩

/-- `w3` relabelled to host `A`. -/
def w3m : CephOsd := ⟨53, 10 * 10 ^ 9, "k3", "A", "hdd"⟩

/-- An improvable topology: `A` holds 2 GB, `B` holds 4 + 10 GB. -/
def W5 : List CephHost :=
  [⟨"A", [("hdd", [w1])]⟩, ⟨"B", [("hdd", [w2, w3])]⟩]

/-- `W5` with `B`'s bucket reordered, as left behind by a revert. -/
def W5a : List CephHost :=
  [⟨"A", [("hdd", [w1])]⟩, ⟨"B", [("hdd", [w3, w2])]⟩]

/-- The hypothetical state after swapping `w1` with `w2`. -/
def G1 : List CephHost :=
  [⟨"A", [("hdd", [w2m])]⟩, ⟨"B", [("hdd", [w3, w1m])]⟩]

/-- The hypothetical state after swapping `w1` with `w3`. -/
def G2 : List CephHost :=
  [⟨"A", [("hdd", [w3m])]⟩, ⟨"B", [("hdd", [w2, w1m])]⟩]

theorem npStd_2_14 : npStd [2, 14] = 6 := by
  rw [npStd_pair, show ((2 : Int) : ℝ) - ((14 : Int) : ℝ) = -12 from by norm_num,
    abs_of_nonpos (by norm_num : (-12 : ℝ) ≤ 0)]
  norm_num

theorem npStd_4_12 : npStd [4, 12] = 4 := by
  rw [npStd_pair, show ((4 : Int) : ℝ) - ((12 : Int) : ℝ) = -8 from by norm_num,
    abs_of_nonpos (by norm_num : (-8 : ℝ) ≤ 0)]
  norm_num

theorem npStd_10_6 : npStd [10, 6] = 2 := by
  rw [npStd_pair, show ((10 : Int) : ℝ) - ((6 : Int) : ℝ) = 4 from by norm_num,
    abs_of_nonneg (by norm_num : (0 : ℝ) ≤ 4)]
  norm_num

/-- Swap Search on `W5` proposes swapping `w1` with `w3` (total
improvement 4, beating the `w1`/`w2` candidate's 2) and restores the host
list exactly. -/
theorem find_best_swap_W5 : find_best_swap W5 = .ok (some (w1, w3), W5) := by
  have hsum1 : ([npStd [2, 14] - npStd [4, 12]] : List ℝ).sum = 2 := by
    rw [npStd_2_14, npStd_4_12]
    norm_num [List.sum_cons, List.sum_nil]
  have hsum2 : ([npStd [2, 14] - npStd [10, 6]] : List ℝ).sum = 4 := by
    rw [npStd_2_14, npStd_10_6]
    norm_num [List.sum_cons, List.sum_nil]
  have i1 : improvements (calculate_spread_by_type W5)
      (calculate_spread_by_type G1) = .ok [npStd [2, 14] - npStd [4, 12]] := rfl
  have i2 : improvements (calculate_spread_by_type W5)
      (calculate_spread_by_type G2) = .ok [npStd [2, 14] - npStd [10, 6]] := rfl
  have s1 : swap_osd W5 w1 w2 = .ok (G1, w1m, w2m) := rfl
  have r1 : swap_osd G1 w1m w2m = .ok (W5a, w1, w2) := rfl
  have s2 : swap_osd W5a w1 w3 = .ok (G2, w1m, w3m) := rfl
  have r2 : swap_osd G2 w1m w3m = .ok (W5, w1, w3) := rfl
  have s3 : swap_osd W5 w2 w1 = .ok (G1, w2m, w1m) := rfl
  have r3 : swap_osd G1 w2m w1m = .ok (W5a, w2, w1) := rfl
  have s4 : swap_osd W5a w3 w1 = .ok (G2, w3m, w1m) := rfl
  have r4 : swap_osd G2 w3m w1m = .ok (W5, w3, w1) := rfl
  have hnn1 : ∀ imp ∈ ([npStd [2, 14] - npStd [4, 12]] : List ℝ), 0 ≤ imp := by
    intro imp hmem
    simp only [List.mem_singleton] at hmem
    rw [hmem, npStd_2_14, npStd_4_12]
    norm_num
  have hnn2 : ∀ imp ∈ ([npStd [2, 14] - npStd [10, 6]] : List ℝ), 0 ≤ imp := by
    intro imp hmem
    simp only [List.mem_singleton] at hmem
    rw [hmem, npStd_2_14, npStd_10_6]
    norm_num
  have acc1 : 0 < ([npStd [2, 14] - npStd [4, 12]] : List ℝ).sum ∧
      ((([npStd [2, 14] - npStd [4, 12]] : List ℝ).sum : ℝ) : EReal) >
        (⊥ : EReal) ∧
      ∀ imp ∈ ([npStd [2, 14] - npStd [4, 12]] : List ℝ), 0 ≤ imp := by
    refine ⟨by rw [hsum1]; norm_num, ?_, hnn1⟩
    exact EReal.bot_lt_coe _
  have acc2 : 0 < ([npStd [2, 14] - npStd [10, 6]] : List ℝ).sum ∧
      ((([npStd [2, 14] - npStd [10, 6]] : List ℝ).sum : ℝ) : EReal) >
        ((2 : ℝ) : EReal) ∧
      ∀ imp ∈ ([npStd [2, 14] - npStd [10, 6]] : List ℝ), 0 ≤ imp := by
    refine ⟨by rw [hsum2]; norm_num, ?_, hnn2⟩
    rw [hsum2, gt_iff_lt]
    exact_mod_cast (by norm_num : (2 : ℝ) < 4)
  have hng3 : ¬ (0 < ([npStd [2, 14] - npStd [4, 12]] : List ℝ).sum ∧
      ((([npStd [2, 14] - npStd [4, 12]] : List ℝ).sum : ℝ) : EReal) >
        ((4 : ℝ) : EReal) ∧
      ∀ imp ∈ ([npStd [2, 14] - npStd [4, 12]] : List ℝ), 0 ≤ imp) := by
    rintro ⟨-, hgt, -⟩
    rw [hsum1, gt_iff_lt] at hgt
    exact absurd (by exact_mod_cast hgt : (4 : ℝ) < 2) (by norm_num)
  have hng4 : ¬ (0 < ([npStd [2, 14] - npStd [10, 6]] : List ℝ).sum ∧
      ((([npStd [2, 14] - npStd [10, 6]] : List ℝ).sum : ℝ) : EReal) >
        ((4 : ℝ) : EReal) ∧
      ∀ imp ∈ ([npStd [2, 14] - npStd [10, 6]] : List ℝ), 0 ≤ imp) := by
    rintro ⟨-, hgt, -⟩
    rw [hsum2, gt_iff_lt] at hgt
    exact absurd (by exact_mod_cast hgt : (4 : ℝ) < 4) (by norm_num)
  have ec1 : evalCandidate (calculate_spread_by_type W5) w1 w2
      ⟨none, ⊥, W5⟩ = .ok ⟨some (w1, w2), ((2 : ℝ) : EReal), W5a⟩ := by
    rw [evalCandidate_accept (by decide) s1 i1 r1 acc1, hsum1]
  have ec2 : evalCandidate (calculate_spread_by_type W5) w1 w3
      ⟨some (w1, w2), ((2 : ℝ) : EReal), W5a⟩ =
      .ok ⟨some (w1, w3), ((4 : ℝ) : EReal), W5⟩ := by
    rw [evalCandidate_accept (by decide) s2 i2 r2 acc2, hsum2]
  have ec3 : evalCandidate (calculate_spread_by_type W5) w2 w1
      ⟨some (w1, w3), ((4 : ℝ) : EReal), W5⟩ =
      .ok ⟨some (w1, w3), ((4 : ℝ) : EReal), W5a⟩ :=
    evalCandidate_reject (by decide) s3 i1 r3 hng3
  have ec4 : evalCandidate (calculate_spread_by_type W5) w3 w1
      ⟨some (w1, w3), ((4 : ℝ) : EReal), W5a⟩ =
      .ok ⟨some (w1, w3), ((4 : ℝ) : EReal), W5⟩ :=
    evalCandidate_reject (by decide) s4 i2 r4 hng4
  have lb1 : loopOsdB (calculate_spread_by_type W5) w1 [w2, w3]
      ⟨none, ⊥, W5⟩ = .ok ⟨some (w1, w3), ((4 : ℝ) : EReal), W5⟩ := by
    show (evalCandidate _ w1 w2 _).bind _ = _
    rw [ec1]
    show (evalCandidate _ w1 w3 _).bind _ = _
    rw [ec2]
    rfl
  have la1 : loopOsdA (calculate_spread_by_type W5) [w1] [w2, w3]
      ⟨none, ⊥, W5⟩ = .ok ⟨some (w1, w3), ((4 : ℝ) : EReal), W5⟩ := by
    show (loopOsdB _ w1 [w2, w3] _).bind _ = _
    rw [lb1]
    rfl
  have lb2 : loopOsdB (calculate_spread_by_type W5) w2 [w1]
      ⟨some (w1, w3), ((4 : ℝ) : EReal), W5⟩ =
      .ok ⟨some (w1, w3), ((4 : ℝ) : EReal), W5a⟩ := by
    show (evalCandidate _ w2 w1 _).bind _ = _
    rw [ec3]
    rfl
  have lb3 : loopOsdB (calculate_spread_by_type W5) w3 [w1]
      ⟨some (w1, w3), ((4 : ℝ) : EReal), W5a⟩ =
      .ok ⟨some (w1, w3), ((4 : ℝ) : EReal), W5⟩ := by
    show (evalCandidate _ w3 w1 _).bind _ = _
    rw [ec4]
    rfl
  have la2 : loopOsdA (calculate_spread_by_type W5) [w2, w3] [w1]
      ⟨some (w1, w3), ((4 : ℝ) : EReal), W5⟩ =
      .ok ⟨some (w1, w3), ((4 : ℝ) : EReal), W5⟩ := by
    show (loopOsdB _ w2 [w1] _).bind _ = _
    rw [lb2]
    show (loopOsdB _ w3 [w1] _).bind _ = _
    rw [lb3]
    rfl
  have hb1 : loopHostB (calculate_spread_by_type W5) "A" ["A", "B"]
      ⟨none, ⊥, W5⟩ = .ok ⟨some (w1, w3), ((4 : ℝ) : EReal), W5⟩ := by
    show (loopOsdA (calculate_spread_by_type W5) [w1] [w2, w3]
      ⟨none, ⊥, W5⟩).bind _ = _
    rw [la1]
    rfl
  have hb2 : loopHostB (calculate_spread_by_type W5) "B" ["A", "B"]
      ⟨some (w1, w3), ((4 : ℝ) : EReal), W5⟩ =
      .ok ⟨some (w1, w3), ((4 : ℝ) : EReal), W5⟩ := by
    show (loopOsdA (calculate_spread_by_type W5) [w2, w3] [w1]
      ⟨some (w1, w3), ((4 : ℝ) : EReal), W5⟩).bind _ = _
    rw [la2]
    rfl
  have ha1 : loopHostA (calculate_spread_by_type W5) ["A", "B"] ["A", "B"]
      ⟨none, ⊥, W5⟩ = .ok ⟨some (w1, w3), ((4 : ℝ) : EReal), W5⟩ := by
    show (loopHostB _ "A" ["A", "B"] _).bind _ = _
    rw [hb1]
    show (loopHostB _ "B" ["A", "B"] _).bind _ = _
    rw [hb2]
    rfl
  show (loopHostA (calculate_spread_by_type W5) ["A", "B"] ["A", "B"]
    ⟨none, ⊥, W5⟩).bind _ = _
  rw [ha1]
  rfl

theorem c5_applied_swap_strictly_decreases_total_dispersion_witness :
    sumSpread W5 = sumSpread W5 ∧
    ∃ s'' a' b' imps,
      swap_osd W5 w1 w3 = .ok (s'', a', b') ∧
      improvements (calculate_spread_by_type W5)
        (calculate_spread_by_type s'') = .ok imps ∧
      (∀ x ∈ imps, 0 ≤ x) ∧ 0 < imps.sum ∧
      sumSpread s'' = sumSpread W5 - imps.sum ∧
      sumSpread s'' < sumSpread W5 :=
  c5_applied_swap_strictly_decreases_total_dispersion find_best_swap_W5

theorem c6_find_best_swap_characterization_witness :
    (∃ a b, IsCandidate W5 a b ∧ Qualifies W5 a b) ∧
    IsCandidate W5 w1 w3 ∧ Qualifies W5 w1 w3 ∧
    (∃ tr pre post, searchTrace W5 = .ok tr ∧ tr = pre ++ (w1, w3) :: post ∧
      Qualifies W5 w1 w3 ∧
      (∀ q ∈ pre, Qualifies W5 q.1 q.2 →
        scoreVal W5 q.1 q.2 < scoreVal W5 w1 w3) ∧
      (∀ q ∈ tr, Qualifies W5 q.1 q.2 →
        scoreVal W5 q.1 q.2 ≤ scoreVal W5 w1 w3)) :=
  ⟨(c6_find_best_swap_characterization find_best_swap_W5).1.mp ⟨(w1, w3), rfl⟩,
    ((c6_find_best_swap_characterization find_best_swap_W5).2.1 w1 w3 rfl).1,
    (((c6_find_best_swap_characterization find_best_swap_W5).2.1 w1 w3 rfl).2).1,
    (c6_find_best_swap_characterization find_best_swap_W5).2.2 (w1, w3) rfl⟩

/-- C6 (counterexample): `find_best_swap` does not always return "the
best pair, or none": on the mixed-tier topology `MT` it returns neither —
the first candidate's hypothetical swap raises `KeyError`, which
propagates out of the search. -/
theorem c6_search_raises_counterexample :
    ∃ e, find_best_swap MT = .error e ∧
      ∀ r : Option (CephOsd × CephOsd) × List CephHost,
        find_best_swap MT ≠ .ok r := by
  refine ⟨"KeyError", rfl, fun r h => ?_⟩
  rw [show find_best_swap MT = .error "KeyError" from rfl] at h
  exact Except.noConfusion h

end CephSwaps
